import Mathlib

/-!
Shallow embedding of `src/policy/mallocspace/global.rs` (`MallocSpace`): a
malloc-backed mark-sweep space.

Addresses are natural numbers; `usize` arithmetic is modelled modulo `2 ^ 64`
(the crate targets 64-bit platforms).  Side-metadata bitmaps are modelled as
boolean-valued functions on addresses; an `ObjectReference` is identified with
the address it converts to (`ObjectReference::to_address` is the identity in
this model), while `object_start_ref` is an environment-supplied function.

External collaborators whose code is not part of the provided source
(`mallocspace/metadata.rs`, `util/linear_scan.rs`, `util/malloc`, the global
`SFT_MAP`, `conversions`) are modelled from the specification; each such
definition carries a doc comment starting with `Modelled from the spec:`.
Debug-build-only code (`cfg(debug_assertions)` blocks, with `ASSERT_ALLOCATION`
a `false` constant) is omitted, as it can only touch the debug counters.
-/

namespace MallocVerify

/-- Machine word modulus: `usize` is 64 bits wide on the targeted platforms. -/
def W : Nat := 2 ^ 64


/-- Wrapping `usize` addition, as performed by `AtomicUsize::fetch_add`. -/
def usizeAdd (a b : Nat) : Nat := (a + b) % W

/-- Wrapping `usize` subtraction, as performed by `AtomicUsize::fetch_sub`. -/
def usizeSub (a b : Nat) : Nat := (a + (W - b % W)) % W

/-- Modelled from the spec: `conversions::chunk_align_down` /
`page_align_down` / `Address::align_down` round an address down to a multiple
of the given power-of-two size.  On naturals this is truncating division. -/
def alignDown (a n : Nat) : Nat := a / n * n

/-- Modelled from the spec: `Address::align_up` rounds an address up to a
multiple of the given power-of-two size. -/
def alignUp (a n : Nat) : Nat := (a + n - 1) / n * n

/-- Point update of a boolean bitmap (one metadata bit flipped to `v`). -/
def setBit (f : Nat → Bool) (a : Nat) (v : Bool) : Nat → Bool :=
  fun x => if x = a then v else f x

/-- Memory orderings that appear in the source (`std::sync::atomic::Ordering`).
They are irrelevant to this sequential model's state transitions but are kept
in the signatures so that each call site records the ordering it passes. -/
inductive MemOrder where
  | relaxed
  | acqrel
  | seqCst

/-- The environment supplied by the VM binding and the C allocator: metadata
granularities, the object model, and the allocator's usable-size oracle.

* `region` models `1 << ALLOC_SIDE_METADATA_SPEC.log_bytes_in_region`, the
  bytes covered by one alloc-bit (the source asserts the mark bitmap has the
  same granularity, which this model reflects by sharing `region`);
* `page` models `BYTES_IN_PAGE`, `chunk` models `BYTES_IN_CHUNK`;
* `markOnSide` records whether `VM::VMObjectModel::LOCAL_MARK_BIT_SPEC` is
  `MetadataSpec::OnSide`;
* `objStart` models `VM::VMObjectModel::object_start_ref`;
* `usable` models `get_malloc_usable_size(addr, is_offset_malloc)`. -/
structure VMEnv where
  region : Nat
  page : Nat
  chunk : Nat
  markOnSide : Bool
  objStart : Nat → Nat
  usable : Nat → Bool → Nat

/-- The mutable state of a `MallocSpace` together with the side-metadata
bitmaps and the global SFT (address-to-space) map it manipulates.

`allocBit`, `markBit` are per-object bits keyed by object address;
`pageMark` is keyed by page start, `chunkMark`, `metaMapped` and `sftMap` by
chunk start; `offsetMalloc` is keyed by the malloc'd start address. -/
structure State where
  activeBytes : Nat
  chunkMin : Nat
  chunkMax : Nat
  allocBit : Nat → Bool
  markBit : Nat → Bool
  pageMark : Nat → Bool
  chunkMark : Nat → Bool
  offsetMalloc : Nat → Bool
  metaMapped : Nat → Bool
  sftMap : Nat → Bool

/-- `MallocSpace::new`: zero live bytes, `chunk_addr_min = usize::MAX`,
`chunk_addr_max = 0`, and no metadata mapped anywhere yet. -/
def initState : State where
  activeBytes := 0
  chunkMin := W - 1
  chunkMax := 0
  allocBit := fun _ => false
  markBit := fun _ => false
  pageMark := fun _ => false
  chunkMark := fun _ => false
  offsetMalloc := fun _ => false
  metaMapped := fun _ => false
  sftMap := fun _ => false

/-! ## Metadata facade (`policy/mallocspace/metadata.rs`, not under `src/`) -/

/-- Modelled from the spec: `is_marked(object, ordering?)` reads the per-object
mark-bit; the ordering argument does not change the value read. -/
def is_marked (s : State) (object : Nat) (_ord : Option MemOrder) : Bool :=
  s.markBit object

/-- Modelled from the spec: `set_mark_bit(object, ordering?)`. -/
def set_mark_bit (s : State) (object : Nat) (_ord : Option MemOrder) : State :=
  { s with markBit := setBit s.markBit object true }

/-- Modelled from the spec: `unset_mark_bit(object, ordering?)`. -/
def unset_mark_bit (s : State) (object : Nat) (_ord : Option MemOrder) : State :=
  { s with markBit := setBit s.markBit object false }

/-- Modelled from the spec: `is_alloced_by_malloc(object)` — the alloc-bit of
the object. -/
def is_alloced_by_malloc (s : State) (object : Nat) : Bool :=
  s.allocBit object

/-- Modelled from the spec: `set_alloc_bit(object)`. -/
def set_alloc_bit (s : State) (object : Nat) : State :=
  { s with allocBit := setBit s.allocBit object true }

/-- Modelled from the spec: ` unset_alloc_bit_unsafe(object)` (non-atomic,
sweep-only). -/
def unset_alloc_bit_unsafe (s : State) (object : Nat) : State :=
  { s with allocBit := setBit s.allocBit object false }

/-- Modelled from the spec: `set_page_mark(page_addr)`. -/
def set_page_mark (s : State) (page_addr : Nat) : State :=
  { s with pageMark := setBit s.pageMark page_addr true }

/-- Modelled from the spec: `set_chunk_mark(chunk_start)`. -/
def set_chunk_mark (s : State) (chunk_start : Nat) : State :=
  { s with chunkMark := setBit s.chunkMark chunk_start true }

/-- Modelled from the spec: ` unset_chunk_mark_unsafe(chunk_start)`. -/
def unset_chunk_mark_unsafe (s : State) (chunk_start : Nat) : State :=
  { s with chunkMark := setBit s.chunkMark chunk_start false }

/-- Modelled from the spec: `is_offset_malloc(addr)`. -/
def is_offset_malloc (s : State) (addr : Nat) : Bool :=
  s.offsetMalloc addr

/-- Modelled from the spec: `set_offset_malloc_bit(addr)`. -/
def set_offset_malloc_bit (s : State) (addr : Nat) : State :=
  { s with offsetMalloc := setBit s.offsetMalloc addr true }

/-- Modelled from the spec: `unset_offset_malloc_bit_unsafe(addr)`. -/
def unset_offset_malloc_bit_unsafe (s : State) (addr : Nat) : State :=
  { s with offsetMalloc := setBit s.offsetMalloc addr false }

/-- Modelled from the spec: `has_object_alloced_by_malloc(addr)` — the
"cheapest check that some object begins at `addr`, usable even when the
address has never been touched by this space": it first checks that the
side metadata covering the address is mapped, then reads the alloc-bit. -/
def has_object_alloced_by_malloc (env : VMEnv) (s : State) (addr : Nat) : Bool :=
  s.metaMapped (alignDown addr env.chunk) && s.allocBit addr

/-- Number of chunks overlapping the half-open range `[addr, addr + size)`
(the chunks visited by the metadata module's per-chunk loops, which start at
`chunk_align_down(addr)` and step by `BYTES_IN_CHUNK` while below
`addr + size`). -/
def chunkCount (env : VMEnv) (addr size : Nat) : Nat :=
  (addr + size - alignDown addr env.chunk + env.chunk - 1) / env.chunk

/-- Modelled from the spec: `is_meta_space_mapped(addr, size)` — true iff the
side metadata is mapped for every chunk overlapping `[addr, addr + size)`. -/
def is_meta_space_mapped (env : VMEnv) (s : State) (addr size : Nat) : Bool :=
  (List.range (chunkCount env addr size)).all
    (fun i => s.metaMapped (alignDown addr env.chunk + i * env.chunk))

/-- Modelled from the spec: `map_meta_space(ctx, addr, size)` — lay down side
metadata for every chunk overlapping `[addr, addr + size)`. -/
def map_meta_space (env : VMEnv) (s : State) (addr size : Nat) : State :=
  { s with metaMapped := fun c =>
      ((List.range (chunkCount env addr size)).any
        (fun i => c == alignDown addr env.chunk + i * env.chunk))
      || s.metaMapped c }

/-- Modelled from the spec: `SFT_MAP.update(space, addr, size)` publishes this
space as the owner of every chunk overlapping `[addr, addr + size)`. -/
def sft_update (env : VMEnv) (s : State) (addr size : Nat) : State :=
  { s with sftMap := fun c =>
      ((List.range (chunkCount env addr size)).any
        (fun i => c == alignDown addr env.chunk + i * env.chunk))
      || s.sftMap c }

/-- Modelled from the spec: `SFT_MAP.clear(chunk_start)` revokes ownership of
one chunk. -/
def sft_clear (s : State) (chunk_start : Nat) : State :=
  { s with sftMap := setBit s.sftMap chunk_start false }

/-- `bzero_metadata(&mark_bit_spec, chunk_start, BYTES_IN_CHUNK)` as called by
the side-mark sweep: bulk-zero the mark bitmap over `[start, start + len)`. -/
def bzero_mark_metadata (s : State) (start len : Nat) : State :=
  { s with markBit := fun a =>
      if start ≤ a ∧ a < start + len then false else s.markBit a }

/-! ## SFT / Space methods of `MallocSpace` -/

/-- `Space::in_space` (and `SFT::is_in_space`): the alloc-bit of the object.
The `ASSERT_ALLOCATION` debug block is compiled out (`ASSERT_ALLOCATION` is
the constant `false`). -/
def in_space (s : State) (object : Nat) : Bool :=
  is_alloced_by_malloc s object

/-- `SFT::is_live`: reads the mark-bit with `Some(Ordering::SeqCst)`. -/
def is_live (s : State) (object : Nat) : Bool :=
  is_marked s object (some MemOrder.seqCst)

/-- `SFT::is_mmtk_object(addr)`: `has_object_alloced_by_malloc(addr)`. -/
def is_mmtk_object (env : VMEnv) (s : State) (addr : Nat) : Bool :=
  has_object_alloced_by_malloc env s addr

/-- `SFT::initialize_object_metadata` (source name retained modulo the
leading token): sets the page-mark of the object's page, then the alloc-bit
of the object. -/
def init_object_metadata (env : VMEnv) (s : State) (object : Nat) : State :=
  let page_addr := alignDown object env.page
  set_alloc_bit (set_page_mark s page_addr) object

/-- `MallocSpace::trace_object(queue, object)`.  The `queue` is the worker's
tracing queue, modelled as a list; `enqueue` appends.  Result `none` models
the fatal `assert!` firing (process abort); otherwise the returned object
reference, the new state and the new queue are produced.  A null
`ObjectReference` is address `0`. -/
def trace_object (env : VMEnv) (s : State) (q : List Nat) (object : Nat) :
    Option (Nat × State × List Nat) :=
  if object = 0 then
    some (object, s, q)
  else if !in_space s object then
    none
  else if !is_marked s object none then
    let chunk_start := alignDown object env.chunk
    let s1 := set_mark_bit s object (some MemOrder.seqCst)
    let s2 := set_chunk_mark s1 chunk_start
    some (object, s2, q ++ [object])
  else
    some (object, s, q)

/-- `MallocSpace::map_metadata_and_update_bound(addr, size)`: map the side
metadata for the range, then run the two monotone compare-exchange loops.  In
this sequential model each `compare_exchange_weak` loop collapses to "lower
`chunk_addr_min` to the candidate if the candidate is smaller" and "raise
`chunk_addr_max` to the candidate if the candidate is larger". -/
def map_metadata_and_update_bound (env : VMEnv) (s : State) (addr size : Nat) :
    State :=
  let s1 := map_meta_space env s addr size
  let min_chunk := alignDown addr env.chunk
  let s2 := if min_chunk < s1.chunkMin then { s1 with chunkMin := min_chunk } else s1
  let max_chunk := alignDown (addr + size) env.chunk
  if max_chunk > s2.chunkMax then { s2 with chunkMax := max_chunk } else s2

/-- The outcome of `MallocSpace::alloc`: the returned address, the state after
the call, and whether the caller was parked through
`VMCollection::block_for_gc` before the return. -/
structure AllocOutcome where
  ret : Nat
  s : State
  blockedForGC : Bool

/-- `MallocSpace::alloc(tls, size, align, offset)`.

Per-call external inputs are passed explicitly: `pollRes` is the value of
`VM::VMActivePlan::global().poll(false, Some(self))`, `mutator` the value of
`VM::VMActivePlan::is_mutator(tls)`, and `raw` the pair
`(address, is_offset_malloc)` returned by `malloc_ms_util::alloc` for this
call.  Result `none` models the fatal `assert!("Polling in GC worker")`. -/
def alloc (env : VMEnv) (s : State) (pollRes mutator : Bool)
    (raw : Nat × Bool) : Option AllocOutcome :=
  if pollRes then
    if !mutator then none
    else some ⟨0, s, true⟩
  else
    let address := raw.1
    let is_offset_malloc := raw.2
    if address ≠ 0 then
      let actual_size := env.usable address is_offset_malloc
      let s1 :=
        if !is_meta_space_mapped env s address actual_size then
          sft_update env (map_metadata_and_update_bound env s address actual_size)
            address actual_size
        else s
      let s2 := { s1 with activeBytes := usizeAdd s1.activeBytes actual_size }
      let s3 := if is_offset_malloc then set_offset_malloc_bit s2 address else s2
      some ⟨address, s3, false⟩
    else
      some ⟨address, s, false⟩

/-- `MallocSpace::free_internal(addr, bytes, offset_malloc_bit)`: run the
appropriate libc free (external, no model effect), clear the offset-malloc
bit if it was set, and subtract `bytes` from `active_bytes`. -/
def free_internal (s : State) (addr : Nat) (bytes : Nat)
    (offset_malloc_bit : Bool) : State :=
  let s1 := if offset_malloc_bit then unset_offset_malloc_bit_unsafe s addr else s
  { s1 with activeBytes := usizeSub s1.activeBytes bytes }

/-- `MallocSpace::free(addr)`: look up the offset-malloc bit, query the usable
size, call the internal free path. -/
def free (env : VMEnv) (s : State) (addr : Nat) : State :=
  let offset_malloc_bit := is_offset_malloc s addr
  let bytes := env.usable addr offset_malloc_bit
  free_internal s addr bytes offset_malloc_bit

/-- `MallocSpace::get_malloc_addr_size(object)`: the object's malloc start
address, its offset-malloc bit, and its malloc usable size. -/
def get_malloc_addr_size (env : VMEnv) (s : State) (object : Nat) :
    Nat × Bool × Nat :=
  let obj_start := env.objStart object
  let offset_malloc_bit := is_offset_malloc s obj_start
  let bytes := env.usable obj_start offset_malloc_bit
  (obj_start, offset_malloc_bit, bytes)

/-- `MallocSpace::clean_up_empty_chunk(chunk_start)`: unset the chunk-mark
(non-atomically) and clear the SFT entry of the chunk. -/
def clean_up_empty_chunk (s : State) (chunk_start : Nat) : State :=
  sft_clear ( unset_chunk_mark_unsafe s chunk_start) chunk_start

/-- The page-mark clearing loop inside `sweep_object`:
`while page < stop { unset_page_mark_unsafe(page); page += BYTES_IN_PAGE }`
starting from `start`.  For a positive step the loop clears exactly the
addresses `start + i * step` with `start + i * step < stop`, i.e. the first
`⌈(stop - start) / step⌉` grid points; the definition uses that closed form. -/
def unset_page_marks (s : State) (start stop step : Nat) : State :=
  { s with pageMark := fun p =>
      if (List.range ((stop - start + step - 1) / step)).any (fun i => p == start + i * step) then
        false
      else s.pageMark p }

/-- `MallocSpace::sweep_object(object, &mut empty_page_start)`.  Returns
`(swept, new state, new empty_page_start)`. -/
def sweep_object (env : VMEnv) (s : State) (object : Nat) (eps : Nat) :
    Bool × State × Nat :=
  let r := get_malloc_addr_size env s object
  let obj_start := r.1
  let offset_malloc := r.2.1
  let bytes := r.2.2
  if !is_marked s object none then
    let s1 := free_internal s obj_start bytes offset_malloc
    let s2 := unset_alloc_bit_unsafe s1 object
    (true, s2, eps)
  else
    let s1 :=
      if eps ≠ 0 then
        unset_page_marks s eps (alignDown object env.page) env.page
      else s
    (false, s1, alignUp (obj_start + bytes) env.page)

/-- `MallocObjectSize::size(object)`: the malloc usable size of the object. -/
def objectSize (env : VMEnv) (s : State) (object : Nat) : Nat :=
  (get_malloc_addr_size env s object).2.2

/-- Modelled from the spec: the step by which the linear object iterator
(`util/linear_scan.rs`, not under `src/`) skips past a yielded object — its
usable size aligned up to the bitmap granularity.  Objects occupy at least one
granule, so the step is at least `region` (this also makes the scan total). -/
def iterStep (env : VMEnv) (s : State) (object : Nat) : Nat :=
  max env.region (alignUp (objectSize env s object) env.region)

/-- Modelled from the spec: one linear scan over `[cursor, endA)` as performed
by `ObjectIterator` driving `sweep_object` on every object whose alloc-bit is
set.  `clearMark = true` is the header-mark sweep's loop body, which
additionally unsets the mark-bit of every surviving (live) object;
`clearMark = false` is the loop body used inside a side-mark bulk stride.
The object's step is computed from the state at the moment it is yielded.
`fuel` bounds the iteration count; since every step advances the cursor by at
least one byte (for a positive `region`), `fuel = endA - cursor` suffices. -/
def sweep_loop (env : VMEnv) (clearMark : Bool) (endA : Nat) :
    Nat → Nat → State → Nat → State × Nat
  | 0, _, s, eps => (s, eps)
  | fuel + 1, cursor, s, eps =>
    if cursor < endA then
      if s.allocBit cursor then
        let step := iterStep env s cursor
        let r := sweep_object env s cursor eps
        let s2 := if clearMark && !r.1 then unset_mark_bit r.2.1 cursor none else r.2.1
        sweep_loop env clearMark endA fuel (cursor + step) s2 r.2.2
      else
        sweep_loop env clearMark endA fuel (cursor + env.region) s eps
    else (s, eps)

/-- `MallocSpace::sweep_chunk_mark_in_header(chunk_start)`: linear scan of the
whole chunk, sweeping each object and unsetting the mark of each survivor;
then, if `empty_page_start` was never advanced from zero, tear the empty chunk
down. -/
def sweep_chunk_mark_in_header (env : VMEnv) (s : State) (chunk_start : Nat) :
    State :=
  let r := sweep_loop env true (chunk_start + env.chunk) env.chunk chunk_start s 0
  if r.2 = 0 then clean_up_empty_chunk r.1 chunk_start else r.1

/-- Bytes covered by one 128-bit bulk load of the alloc/mark bitmaps:
`128 * (1 << log_bytes_in_region)`. -/
def bulk (env : VMEnv) : Nat := 128 * env.region

/-- `alloc_128 ^ mark_128 != 0` for the stride starting at `a`: some granule
in the 128-granule stride has alloc-bit and mark-bit differing.  (`load128`
reads the 128 bitmap bits covering `[a, a + bulk)`.) -/
def anyBitDiff (env : VMEnv) (s : State) (a : Nat) : Bool :=
  (List.range 128).any
    (fun i => s.allocBit (a + i * env.region) != s.markBit (a + i * env.region))

/-- `alloc_128 != 0` for the stride starting at `a`: some granule in the
stride has its alloc-bit set. -/
def anyAllocBit (env : VMEnv) (s : State) (a : Nat) : Bool :=
  (List.range 128).any (fun i => s.allocBit (a + i * env.region))

/-- One iteration of the side-mark sweep's stride loop, for the stride
starting at `address`: if some granule has alloc and mark bits differing,
linearly scan the stride sweeping each object; otherwise, if any alloc-bit is
set (an all-live stride), advance `empty_page_start` past the stride. -/
def sweep_stride (env : VMEnv) (s : State) (eps : Nat) (address : Nat) :
    State × Nat :=
  if anyBitDiff env s address then
    sweep_loop env false (address + bulk env) (bulk env) address s eps
  else if anyAllocBit env s address then (s, address + bulk env)
  else (s, eps)

/-- The side-mark sweep's outer loop: `n` strides starting at `address`,
each `bulk env` bytes long (`while address < chunk_end` stepping by the bulk
load size; the chunk is a multiple of the bulk size, so the iteration count
is `BYTES_IN_CHUNK / bulk`). -/
def sweep_strides (env : VMEnv) : Nat → Nat → State → Nat → State × Nat
  | 0, _, s, eps => (s, eps)
  | n + 1, address, s, eps =>
    let r := sweep_stride env s eps address
    sweep_strides env n (address + bulk env) r.1 r.2

/-- `MallocSpace::sweep_chunk_mark_on_side(chunk_start, mark_bit_spec)`:
scan the chunk stride by stride, then bulk-zero the mark bitmap over the
entire chunk, then tear the chunk down if `empty_page_start` was never
advanced from zero. -/
def sweep_chunk_mark_on_side (env : VMEnv) (s : State) (chunk_start : Nat) :
    State :=
  let r := sweep_strides env (env.chunk / bulk env) chunk_start s 0
  let s2 := bzero_mark_metadata r.1 chunk_start env.chunk
  if r.2 = 0 then clean_up_empty_chunk s2 chunk_start else s2

/-- `MallocSpace::sweep_chunk(chunk_start)`: dispatch on the location of the
mark bit declared by the VM's object model. -/
def sweep_chunk (env : VMEnv) (s : State) (chunk_start : Nat) : State :=
  if env.markOnSide then sweep_chunk_mark_on_side env s chunk_start
  else sweep_chunk_mark_in_header env s chunk_start

/-! ## Interleaving model of concurrent `trace_object` calls (claim C2)

`N` workers run `trace_object` on one fixed non-null, in-space object whose
mark-bit is initially clear.  For that object the call consists of two
separate atomic memory accesses on the shared mark-bit (source lines 319-323):
the load `is_marked(object, None)` and — if it read false — the store
`set_mark_bit(object, Some(SeqCst))` followed by the enqueue.  The model makes
the store and the enqueue a single atomic phase, which is *coarser* than the
real code (where they are distinct operations), so every behaviour of the
model is a behaviour of the code.  There is no compare-and-swap between the
load and the store. -/

/-- The program counter of one tracing worker: before its mark-bit load,
after having loaded `false` (about to mark and enqueue), or finished. -/
inductive WPhase where
  | load
  | store
  | finished
deriving DecidableEq

/-- Shared state of the race: the object's mark-bit, the total number of
enqueues of the object across all workers, and each worker's phase. -/
structure RaceState (n : Nat) where
  marked : Bool
  enqueues : Nat
  phase : Fin n → WPhase

/-- Initial race state: object unmarked, nothing enqueued, all workers about
to perform their mark-bit load. -/
def raceInit (n : Nat) : RaceState n where
  marked := false
  enqueues := 0
  phase := fun _ => WPhase.load

/-- One atomic step of worker `i`: its mark-bit load (branching on the value
read), or its mark-bit store plus enqueue. -/
def raceStep {n : Nat} (st : RaceState n) (i : Fin n) : RaceState n :=
  match st.phase i with
  | WPhase.load =>
    if st.marked then
      { st with phase := fun j => if j = i then WPhase.finished else st.phase j }
    else
      { st with phase := fun j => if j = i then WPhase.store else st.phase j }
  | WPhase.store =>
    { st with marked := true, enqueues := st.enqueues + 1,
              phase := fun j => if j = i then WPhase.finished else st.phase j }
  | WPhase.finished => st

/-- Run the race under a schedule (the sequence of worker ids that take the
next atomic step). -/
def raceRun (n : Nat) (sched : List (Fin n)) : RaceState n :=
  sched.foldl raceStep (raceInit n)

/-! ## Arithmetic helper lemmas -/

lemma W_pos : 0 < W := by norm_num [W]

lemma usizeSub_usizeAdd (a b : Nat) (h : a < W) : usizeSub (usizeAdd a b) b = a := by
  unfold usizeAdd usizeSub
  have hd := Nat.div_add_mod b W
  have hm : b % W < W := Nat.mod_lt _ W_pos
  rw [Nat.mod_add_mod]
  have h1 : a + b + (W - b % W) = a + W + W * (b / W) := by omega
  rw [h1, Nat.add_mul_mod_self_left, Nat.add_mod_right, Nat.mod_eq_of_lt h]

lemma alignDown_le (a n : Nat) : alignDown a n ≤ a := Nat.div_mul_le_self a n

lemma alignDown_dvd (a n : Nat) : n ∣ alignDown a n := dvd_mul_left n (a / n)

lemma alignDown_mono {a b : Nat} (n : Nat) (h : a ≤ b) :
    alignDown a n ≤ alignDown b n :=
  Nat.mul_le_mul_right n (Nat.div_le_div_right h)

lemma alignDown_eq_sub (a n : Nat) : alignDown a n = a - a % n := by
  unfold alignDown
  rw [Nat.mul_comm]
  exact Nat.eq_sub_of_add_eq (Nat.div_add_mod a n)

lemma le_alignDown {c a n : Nat} (hn : 0 < n) (hdvd : n ∣ c) (h : c ≤ a) :
    c ≤ alignDown a n := by
  obtain ⟨k, rfl⟩ := hdvd
  unfold alignDown
  have hk : k ≤ a / n := (Nat.le_div_iff_mul_le hn).mpr (by rw [Nat.mul_comm]; exact h)
  calc n * k = k * n := Nat.mul_comm n k
    _ ≤ a / n * n := Nat.mul_le_mul_right n hk

lemma alignDown_add_lt (a n : Nat) (hn : 0 < n) : a < alignDown a n + n := by
  have h := alignDown_eq_sub a n
  have hm : a % n < n := Nat.mod_lt _ hn
  have hle : a % n ≤ a := Nat.mod_le a n
  omega

lemma alignUp_dvd (a n : Nat) : n ∣ alignUp a n := dvd_mul_left n ((a + n - 1) / n)

lemma le_alignUp (a n : Nat) (hn : 0 < n) : a ≤ alignUp a n := by
  have h := alignDown_eq_sub (a + n - 1) n
  have hm : (a + n - 1) % n < n := Nat.mod_lt _ hn
  have hle : (a + n - 1) % n ≤ a + n - 1 := Nat.mod_le _ _
  unfold alignUp
  unfold alignDown at h
  omega

lemma alignUp_pos (a n : Nat) (ha : 0 < a) (hn : 0 < n) : 0 < alignUp a n :=
  lt_of_lt_of_le ha (le_alignUp a n hn)

lemma dvd_max_of_dvd {n x y : Nat} (hx : n ∣ x) (hy : n ∣ y) : n ∣ max x y := by
  rcases Nat.le_total x y with h | h
  · rwa [Nat.max_eq_right h]
  · rwa [Nat.max_eq_left h]

lemma grid_gap {n a b : Nat} (ha : n ∣ a) (hb : n ∣ b) (h : a < b) : a + n ≤ b := by
  obtain ⟨i, rfl⟩ := ha
  obtain ⟨j, rfl⟩ := hb
  have hij : i < j := Nat.lt_of_mul_lt_mul_left h
  calc n * i + n = n * (i + 1) := by ring
    _ ≤ n * j := Nat.mul_le_mul_left n hij

lemma lt_ceilDiv_iff (i d st : Nat) (h : 0 < st) :
    i < (d + st - 1) / st ↔ i * st < d := by
  rw [Nat.lt_iff_add_one_le, Nat.le_div_iff_mul_le h]
  have hmul : (i + 1) * st = i * st + st := by ring
  omega

lemma iterStep_pos (env : VMEnv) (s : State) (c : Nat) (h : 0 < env.region) :
    0 < iterStep env s c :=
  lt_of_lt_of_le h (le_max_left _ _)

lemma region_dvd_iterStep (env : VMEnv) (s : State) (c : Nat) :
    env.region ∣ iterStep env s c :=
  dvd_max_of_dvd dvd_rfl (alignUp_dvd _ _)

lemma region_le_iterStep (env : VMEnv) (s : State) (c : Nat) :
    env.region ≤ iterStep env s c :=
  le_max_left _ _

/-! ## Concrete instances used by witnesses and counterexamples -/

/-- A small concrete environment: 16-byte bitmap granules, 256-byte pages,
2048-byte chunks (exactly one 128-granule bulk stride per chunk), identity
object starts, and a 16-byte usable size for every block except the one at
address 2048, whose usable size is 10 bytes. -/
def envEx : VMEnv where
  region := 16
  page := 256
  chunk := 2048
  markOnSide := false
  objStart := fun a => a
  usable := fun a _ => if a = 2048 then 10 else 16

/-- State with a single allocated, unmarked object at address 64. -/
def sAlloc64 : State := { initState with allocBit := fun a => a == 64 }

/-- State with a single allocated and marked object at address 64. -/
def sLive64 : State :=
  { initState with allocBit := fun a => a == 64, markBit := fun a => a == 64 }

/-! ## Claim C10 -/

/-- **C10**: `is_live(object)` returns exactly the object's mark-bit, read
with sequentially consistent ordering; an object whose alloc-bit is set but
whose mark-bit is clear is `in_space` but not `is_live`, so the two
predicates can disagree. -/
theorem is_live_iff_mark_bit (s : State) (object : Nat) :
    (is_live s object = true ↔ is_marked s object (some MemOrder.seqCst) = true) ∧
    (is_live s object = true ↔ s.markBit object = true) ∧
    (s.allocBit object = true → s.markBit object = false →
      in_space s object = true ∧ is_live s object = false) := by
  refine ⟨Iff.rfl, Iff.rfl, ?_⟩
  intro h1 h2
  simp [in_space, is_alloced_by_malloc, is_live, is_marked, h1, h2]

/-- Witness for C10 at a concrete state: an allocated but unmarked object is
in the space yet not live. -/
theorem is_live_iff_mark_bit_witness :
    sAlloc64.allocBit 64 = true ∧ sAlloc64.markBit 64 = false ∧
    in_space sAlloc64 64 = true ∧ is_live sAlloc64 64 = false := by
  refine ⟨by decide, by decide, ?_, ?_⟩
  · exact ((is_live_iff_mark_bit sAlloc64 64).2.2 (by decide) (by decide)).1
  · exact ((is_live_iff_mark_bit sAlloc64 64).2.2 (by decide) (by decide)).2

/-! ## Claim C1 -/

/-- **C1**: `trace_object(queue, object)`: null in, null out with no other
effect; a non-null object not `in_space` hits the fatal assertion; a non-null
in-space object with clear mark-bit gets its mark-bit set (passing
`Some(Ordering::SeqCst)`), the chunk-mark of its enclosing chunk set, and is
enqueued; a non-null in-space object already marked causes no change; every
non-aborting call returns the reference it was given. -/
theorem trace_object_contract (env : VMEnv) (s : State) (q : List Nat)
    (object : Nat) :
    (object = 0 → trace_object env s q object = some (0, s, q)) ∧
    (object ≠ 0 → in_space s object = false →
      trace_object env s q object = none) ∧
    (object ≠ 0 → in_space s object = true → is_marked s object none = false →
      ∃ s2, trace_object env s q object = some (object, s2, q ++ [object]) ∧
        s2.markBit object = true ∧
        s2.chunkMark (alignDown object env.chunk) = true ∧
        s2 = set_chunk_mark (set_mark_bit s object (some MemOrder.seqCst))
              (alignDown object env.chunk)) ∧
    (object ≠ 0 → in_space s object = true → is_marked s object none = true →
      trace_object env s q object = some (object, s, q)) ∧
    (∀ r s2 q2, trace_object env s q object = some (r, s2, q2) → r = object) := by
  refine ⟨?_, ?_, ?_, ?_, ?_⟩
  · intro h0
    subst h0
    simp [trace_object]
  · intro h0 hin
    simp [trace_object, h0, hin]
  · intro h0 hin hm
    refine ⟨set_chunk_mark (set_mark_bit s object (some MemOrder.seqCst))
      (alignDown object env.chunk), ?_, ?_, ?_, rfl⟩
    · simp [trace_object, h0, hin, hm]
    · simp [set_chunk_mark, set_mark_bit, setBit]
    · simp [set_chunk_mark, set_mark_bit, setBit]
  · intro h0 hin hm
    simp [trace_object, h0, hin, hm]
  · intro r s2 q2 h
    unfold trace_object at h
    split_ifs at h <;> simp_all

/-- Witness for C1 at a concrete input: tracing the allocated, unmarked
object 64 marks it, marks its chunk, enqueues it and returns it. -/
theorem trace_object_contract_witness :
    (64 : Nat) ≠ 0 ∧ in_space sAlloc64 64 = true ∧
    is_marked sAlloc64 64 none = false ∧
    ∃ s2, trace_object envEx sAlloc64 [] 64 = some (64, s2, [] ++ [64]) ∧
      s2.markBit 64 = true ∧ s2.chunkMark (alignDown 64 envEx.chunk) = true ∧
      s2 = set_chunk_mark (set_mark_bit sAlloc64 64 (some MemOrder.seqCst))
            (alignDown 64 envEx.chunk) :=
  ⟨by decide, by decide, by decide,
    (trace_object_contract envEx sAlloc64 [] 64).2.2.1 (by decide) (by decide)
      (by decide)⟩

/-! ## Claim C3 -/

/-- **C3**: `alloc` returns the null address in exactly two cases: when the
GC trigger's poll returns true (the caller must be a mutator — fatal
assertion otherwise — and is parked via `block_for_gc` before null is
returned, with the space state untouched), and when the underlying allocator
returns null, in which case `alloc` has no side effects at all: the state is
returned unchanged (`active_bytes`, metadata mappings, offset-malloc bits and
the SFT map all keep their previous values). -/
theorem alloc_null_cases (env : VMEnv) (s : State) (pollRes mutator : Bool)
    (raw : Nat × Bool) :
    (pollRes = true → mutator = true →
      alloc env s pollRes mutator raw = some ⟨0, s, true⟩) ∧
    (pollRes = true → mutator = false →
      alloc env s pollRes mutator raw = none) ∧
    (pollRes = false → raw.1 = 0 →
      alloc env s pollRes mutator raw = some ⟨0, s, false⟩) ∧
    (pollRes = false → raw.1 ≠ 0 →
      ∃ o, alloc env s pollRes mutator raw = some o ∧ o.ret = raw.1 ∧
        o.ret ≠ 0 ∧ o.blockedForGC = false) ∧
    (∀ o, alloc env s pollRes mutator raw = some o →
      (o.ret = 0 ↔ pollRes = true ∨ raw.1 = 0)) := by
  refine ⟨?_, ?_, ?_, ?_, ?_⟩
  · intro h1 h2
    simp [alloc, h1, h2]
  · intro h1 h2
    simp [alloc, h1, h2]
  · intro h1 h2
    simp [alloc, h1, h2]
  · intro h1 h2
    subst h1
    rcases ho : alloc env s false mutator raw with _ | o
    · exact absurd ho (by simp [alloc, h2])
    · refine ⟨o, rfl, ?_⟩
      simp only [alloc, Bool.false_eq_true, if_false, if_pos h2,
        Option.some.injEq] at ho
      subst ho
      exact ⟨rfl, h2, rfl⟩
  · intro o h
    unfold alloc at h
    cases pollRes with
    | true =>
      cases mutator with
      | true =>
        simp at h
        subst h
        simp
      | false => simp at h
    | false =>
      by_cases h0 : raw.1 = 0
      · simp [h0] at h
        subst h
        simp [h0]
      · simp [h0] at h
        subst h
        simp [h0]

/-- Witness for C3 at a concrete input: the allocator returning null makes
`alloc` return null with the state unchanged. -/
theorem alloc_null_cases_witness :
    alloc envEx initState false true (0, false) = some ⟨0, initState, false⟩ :=
  (alloc_null_cases envEx initState false true (0, false)).2.2.1 rfl rfl

/-! ## Shape lemmas for the successful `alloc` path and for `sweep_object` -/

/-- The state built by the successful (non-null address, no GC poll) branch
of `alloc`. -/
def allocSuccState (env : VMEnv) (s : State) (raw : Nat × Bool) : State :=
  let actual_size := env.usable raw.1 raw.2
  let s1 :=
    if !is_meta_space_mapped env s raw.1 actual_size then
      sft_update env (map_metadata_and_update_bound env s raw.1 actual_size)
        raw.1 actual_size
    else s
  let s2 := { s1 with activeBytes := usizeAdd s1.activeBytes actual_size }
  if raw.2 then set_offset_malloc_bit s2 raw.1 else s2

lemma alloc_success_eq (env : VMEnv) (s : State) (mutator : Bool)
    (raw : Nat × Bool) (h0 : raw.1 ≠ 0) :
    alloc env s false mutator raw
      = some ⟨raw.1, allocSuccState env s raw, false⟩ := by
  simp [alloc, allocSuccState, h0]

lemma alloc_some_nonnull (env : VMEnv) (s : State) (pollRes mutator : Bool)
    (raw : Nat × Bool) (o : AllocOutcome)
    (h : alloc env s pollRes mutator raw = some o) (hret : o.ret ≠ 0) :
    pollRes = false ∧ o.ret = raw.1 ∧ o.blockedForGC = false ∧
    o.s = allocSuccState env s raw := by
  cases pollRes with
  | true =>
    unfold alloc at h
    cases mutator with
    | true =>
      simp at h
      subst h
      exact absurd rfl hret
    | false => simp at h
  | false =>
    by_cases h0 : raw.1 = 0
    · unfold alloc at h
      simp [h0] at h
      subst h
      exact absurd rfl hret
    · rw [alloc_success_eq env s mutator raw h0] at h
      have h2 := Option.some.inj h
      subst h2
      exact ⟨rfl, rfl, rfl, rfl⟩

lemma allocSuccState_activeBytes (env : VMEnv) (s : State) (raw : Nat × Bool) :
    (allocSuccState env s raw).activeBytes
      = usizeAdd s.activeBytes (env.usable raw.1 raw.2) := by
  unfold allocSuccState set_offset_malloc_bit sft_update
    map_metadata_and_update_bound map_meta_space
  dsimp only
  split_ifs <;> rfl

lemma allocSuccState_allocBit (env : VMEnv) (s : State) (raw : Nat × Bool) :
    (allocSuccState env s raw).allocBit = s.allocBit := by
  unfold allocSuccState set_offset_malloc_bit sft_update
    map_metadata_and_update_bound map_meta_space
  dsimp only
  split_ifs <;> rfl

lemma allocSuccState_offsetMalloc_self (env : VMEnv) (s : State)
    (raw : Nat × Bool) (hclean : s.offsetMalloc raw.1 = false) :
    (allocSuccState env s raw).offsetMalloc raw.1 = raw.2 := by
  unfold allocSuccState set_offset_malloc_bit sft_update
    map_metadata_and_update_bound map_meta_space setBit
  dsimp only
  split_ifs <;> simp_all

lemma free_internal_fields (s : State) (addr : Nat) (bytes : Nat) (ob : Bool) :
    (free_internal s addr bytes ob).activeBytes = usizeSub s.activeBytes bytes ∧
    (free_internal s addr bytes ob).allocBit = s.allocBit ∧
    (free_internal s addr bytes ob).markBit = s.markBit ∧
    (free_internal s addr bytes ob).pageMark = s.pageMark ∧
    (free_internal s addr bytes ob).chunkMark = s.chunkMark ∧
    (free_internal s addr bytes ob).metaMapped = s.metaMapped ∧
    (free_internal s addr bytes ob).sftMap = s.sftMap ∧
    (∀ x, x ≠ addr → (free_internal s addr bytes ob).offsetMalloc x
      = s.offsetMalloc x) := by
  unfold free_internal unset_offset_malloc_bit_unsafe
  split_ifs <;>
    refine ⟨rfl, rfl, rfl, rfl, rfl, rfl, rfl, ?_⟩ <;>
    · intro x hx
      simp [setBit, hx]

lemma sweep_object_dead (env : VMEnv) (s : State) (object eps : Nat)
    (hm : s.markBit object = false) :
    sweep_object env s object eps =
      (true,
       unset_alloc_bit_unsafe
         (free_internal s (env.objStart object) (objectSize env s object)
           (s.offsetMalloc (env.objStart object))) object,
       eps) := by
  simp [sweep_object, get_malloc_addr_size, is_marked, is_offset_malloc,
    objectSize, hm]

lemma sweep_object_live (env : VMEnv) (s : State) (object eps : Nat)
    (hm : s.markBit object = true) :
    sweep_object env s object eps =
      (false,
       if eps ≠ 0 then
         unset_page_marks s eps (alignDown object env.page) env.page
       else s,
       alignUp (env.objStart object + objectSize env s object) env.page) := by
  simp [sweep_object, get_malloc_addr_size, is_marked, is_offset_malloc,
    objectSize, hm]

/-! ## Claim C4 -/

/-- **C4**: a successful allocation immediately followed by `free` of the
returned address restores `active_bytes` exactly: the usable size added by
`alloc` equals the usable size that `free` re-derives from the address and
its offset-malloc bit.  (The offset-malloc bit of the fresh block is clear
before the allocation, and `active_bytes` is a 64-bit counter.) -/
theorem alloc_free_restores_active_bytes (env : VMEnv) (s : State)
    (pollRes mutator : Bool) (raw : Nat × Bool) (o : AllocOutcome)
    (h : alloc env s pollRes mutator raw = some o) (hret : o.ret ≠ 0)
    (hclean : s.offsetMalloc o.ret = false) (hW : s.activeBytes < W) :
    (free env o.s o.ret).activeBytes = s.activeBytes := by
  obtain ⟨hp, hr, hb, hs⟩ := alloc_some_nonnull env s pollRes mutator raw o h hret
  rw [hr] at hclean
  rw [hs, hr]
  have hbit : is_offset_malloc (allocSuccState env s raw) raw.1 = raw.2 :=
    allocSuccState_offsetMalloc_self env s raw hclean
  unfold free
  rw [hbit]
  rw [(free_internal_fields (allocSuccState env s raw) raw.1
        (env.usable raw.1 raw.2) raw.2).1]
  rw [allocSuccState_activeBytes]
  exact usizeSub_usizeAdd s.activeBytes (env.usable raw.1 raw.2) hW

/-- The outcome of a concrete successful allocation at address 4096 in the
initial state (used by several witnesses and the C9 counterexample). -/
def allocOut4096 : AllocOutcome :=
  (alloc envEx initState false true (4096, false)).getD ⟨0, initState, false⟩

/-- Witness for C4: a concrete allocation at address 4096 followed by a free
of it restores `active_bytes` to its prior value. -/
theorem alloc_free_restores_active_bytes_witness :
    (free envEx allocOut4096.s allocOut4096.ret).activeBytes
      = initState.activeBytes :=
  alloc_free_restores_active_bytes envEx initState false true (4096, false)
    allocOut4096 rfl (by decide) (by decide) (by decide)

/-! ## Claim C6 -/

lemma unset_page_marks_cleared (s : State) (start stop step : Nat)
    (hstep : 0 < step) (p i : Nat) (hp : p = start + i * step)
    (hlt : p < stop) :
    (unset_page_marks s start stop step).pageMark p = false := by
  have hi : i < (stop - start + step - 1) / step :=
    (lt_ceilDiv_iff i (stop - start) step hstep).mpr (by omega)
  have hcond : (List.range ((stop - start + step - 1) / step)).any
      (fun j => p == start + j * step) = true :=
    List.any_eq_true.mpr ⟨i, List.mem_range.mpr hi, by simp [hp]⟩
  unfold unset_page_marks
  dsimp only
  rw [hcond]
  simp

lemma unset_page_marks_preserved (s : State) (start stop step : Nat)
    (hstep : 0 < step) (p : Nat)
    (h : ∀ i, p = start + i * step → ¬ p < stop) :
    (unset_page_marks s start stop step).pageMark p = s.pageMark p := by
  have hcond : (List.range ((stop - start + step - 1) / step)).any
      (fun j => p == start + j * step) = false := by
    rw [List.any_eq_false]
    intro j hj
    simp only [beq_iff_eq]
    intro hpe
    have hjlt := List.mem_range.mp hj
    have hjs : j * step < stop - start := (lt_ceilDiv_iff _ _ _ hstep).mp hjlt
    exact h j hpe (by omega)
  unfold unset_page_marks
  dsimp only
  rw [hcond]
  simp

/-- **C6**: `sweep_object(object, &mut empty_page_start)`: if the object's
mark-bit is clear it frees the block through the internal free path
(subtracting the usable size from `active_bytes`), clears the object's
alloc-bit, and returns true, leaving `empty_page_start` as it was; if the
mark-bit is set it returns false, clears the page-mark of exactly the pages
`empty_page_start + i * BYTES_IN_PAGE` that lie below
`page_align_down(object)` — provided `empty_page_start` is nonzero, touching
nothing when it is zero — and sets `empty_page_start` to
`page_align_up(obj_start + usable bytes)`. -/
theorem sweep_object_contract (env : VMEnv) (s : State) (object eps : Nat)
    (hpage : 0 < env.page) :
    (s.markBit object = false →
      (sweep_object env s object eps).1 = true ∧
      (sweep_object env s object eps).2.2 = eps ∧
      (sweep_object env s object eps).2.1.activeBytes
        = usizeSub s.activeBytes (objectSize env s object) ∧
      (sweep_object env s object eps).2.1.allocBit object = false ∧
      (∀ a, a ≠ object →
        (sweep_object env s object eps).2.1.allocBit a = s.allocBit a) ∧
      (sweep_object env s object eps).2.1.markBit = s.markBit ∧
      (sweep_object env s object eps).2.1.pageMark = s.pageMark) ∧
    (s.markBit object = true →
      (sweep_object env s object eps).1 = false ∧
      (sweep_object env s object eps).2.2
        = alignUp (env.objStart object + objectSize env s object) env.page ∧
      (sweep_object env s object eps).2.1.activeBytes = s.activeBytes ∧
      (sweep_object env s object eps).2.1.allocBit = s.allocBit ∧
      (sweep_object env s object eps).2.1.markBit = s.markBit ∧
      (eps ≠ 0 → ∀ i, eps + i * env.page < alignDown object env.page →
        (sweep_object env s object eps).2.1.pageMark (eps + i * env.page)
          = false) ∧
      (eps ≠ 0 → ∀ p, (∀ i, p = eps + i * env.page →
          ¬ p < alignDown object env.page) →
        (sweep_object env s object eps).2.1.pageMark p = s.pageMark p) ∧
      (eps = 0 → (sweep_object env s object eps).2.1 = s)) := by
  constructor
  · intro hm
    rw [sweep_object_dead env s object eps hm]
    have hf := free_internal_fields s (env.objStart object)
      (objectSize env s object) (s.offsetMalloc (env.objStart object))
    refine ⟨rfl, rfl, ?_, ?_, ?_, ?_, ?_⟩
    · simpa [ unset_alloc_bit_unsafe] using hf.1
    · simp [ unset_alloc_bit_unsafe, setBit]
    · intro a ha
      simp [ unset_alloc_bit_unsafe, setBit, ha, congrFun hf.2.1 a]
    · simpa [ unset_alloc_bit_unsafe] using hf.2.2.1
    · simpa [ unset_alloc_bit_unsafe] using hf.2.2.2.1
  · intro hm
    rw [sweep_object_live env s object eps hm]
    by_cases he : eps = 0
    · simp [he]
    · refine ⟨rfl, rfl, ?_, ?_, ?_, ?_, ?_, ?_⟩
      · rw [if_pos he]
        rfl
      · rw [if_pos he]
        rfl
      · rw [if_pos he]
        rfl
      · intro _ i hi
        rw [if_pos he]
        exact unset_page_marks_cleared s eps (alignDown object env.page)
          env.page hpage _ i rfl hi
      · intro _ p hp
        rw [if_pos he]
        exact unset_page_marks_preserved s eps (alignDown object env.page)
          env.page hpage p hp
      · intro h0
        exact absurd h0 he

/-- Witness for C6 at concrete inputs: sweeping the dead (unmarked) object 64
frees it; sweeping it when marked leaves the alloc-bit. -/
theorem sweep_object_contract_witness :
    (sweep_object envEx sAlloc64 64 0).1 = true ∧
    (sweep_object envEx sAlloc64 64 0).2.1.allocBit 64 = false ∧
    (sweep_object envEx sLive64 64 0).1 = false := by
  have h1 := (sweep_object_contract envEx sAlloc64 64 0 (by decide)).1 (by decide)
  have h2 := (sweep_object_contract envEx sLive64 64 0 (by decide)).2 (by decide)
  exact ⟨h1.1, h1.2.2.2.1, h2.1⟩

/-! ## Claim C9 -/

/-- **C9 counterexample**: `alloc` itself does *not* establish the alloc-bit.
Concretely, a successful allocation at address 4096 from the initial state
returns 4096, yet `has_object_alloced(4096)` (and `in_space`) is still false
immediately after `alloc` returns: the alloc-bit is only set later, by
`initialize_object_metadata`.  This refutes the claim that `allocate` itself
establishes the alloc-bit observed by `has_object_alloced`. -/
theorem alloc_bit_counterexample :
    alloc envEx initState false true (4096, false) = some allocOut4096 ∧
    allocOut4096.ret = 4096 ∧
    has_object_alloced_by_malloc envEx allocOut4096.s 4096 = false ∧
    in_space allocOut4096.s 4096 = false :=
  ⟨rfl, by decide, by decide, by decide⟩

/-- **C9 (amended)**: the alloc-bit observed by `has_object_alloced` is
established by `initialize_object_metadata` (invoked by the runtime after the
allocation), not by `alloc` itself, which leaves every alloc-bit unchanged;
`free`/`free_internal` also leave every alloc-bit unchanged, so sweep-death
(`sweep_object` on an unmarked object) is the event that falsifies it;
`trace_object` never changes alloc-bits either. -/
theorem alloc_bit_lifecycle (env : VMEnv) (s : State) (object : Nat) :
    ((init_object_metadata env s object).allocBit object = true) ∧
    (s.metaMapped (alignDown object env.chunk) = true →
      has_object_alloced_by_malloc env (init_object_metadata env s object)
        object = true) ∧
    (∀ addr, (free env s addr).allocBit = s.allocBit) ∧
    (∀ addr bytes ob, (free_internal s addr bytes ob).allocBit = s.allocBit) ∧
    (∀ eps, s.markBit object = false →
      (sweep_object env s object eps).2.1.allocBit object = false) ∧
    (∀ pollRes mutator raw o, alloc env s pollRes mutator raw = some o →
      o.s.allocBit = s.allocBit) ∧
    (∀ q obj2 r s2 q2, trace_object env s q obj2 = some (r, s2, q2) →
      s2.allocBit = s.allocBit) := by
  refine ⟨?_, ?_, ?_, ?_, ?_, ?_, ?_⟩
  · simp [init_object_metadata, set_alloc_bit, set_page_mark, setBit]
  · intro h
    simp [has_object_alloced_by_malloc, init_object_metadata, set_alloc_bit,
      set_page_mark, setBit, h]
  · intro addr
    exact (free_internal_fields s addr _ _).2.1
  · intro addr bytes ob
    exact (free_internal_fields s addr bytes ob).2.1
  · intro eps hm
    rw [sweep_object_dead env s object eps hm]
    simp [ unset_alloc_bit_unsafe, setBit]
  · intro pollRes mutator raw o h
    cases pollRes with
    | true =>
      unfold alloc at h
      cases mutator with
      | true =>
        simp at h
        subst h
        rfl
      | false => simp at h
    | false =>
      by_cases h0 : raw.1 = 0
      · unfold alloc at h
        simp [h0] at h
        subst h
        rfl
      · rw [alloc_success_eq env s mutator raw h0] at h
        have h2 := Option.some.inj h
        subst h2
        exact allocSuccState_allocBit env s raw
  · intro q obj2 r s2 q2 h
    unfold trace_object at h
    split_ifs at h with h1 h2 h3
    · simp only [Option.some.injEq, Prod.mk.injEq] at h
      rw [← h.2.1]
    · simp only [Option.some.injEq, Prod.mk.injEq] at h
      rw [← h.2.1]
      simp [set_chunk_mark, set_mark_bit]
    · simp only [Option.some.injEq, Prod.mk.injEq] at h
      rw [← h.2.1]

/-- Witness for the amended C9: concrete runs of `initialize_object_metadata`
and a dead sweep showing the alloc-bit's true lifecycle. -/
theorem alloc_bit_lifecycle_witness :
    (init_object_metadata envEx initState 64).allocBit 64 = true ∧
    sAlloc64.markBit 64 = false ∧
    (sweep_object envEx sAlloc64 64 0).2.1.allocBit 64 = false := by
  refine ⟨(alloc_bit_lifecycle envEx initState 64).1, by decide, ?_⟩
  exact (alloc_bit_lifecycle envEx sAlloc64 64).2.2.2.2.1 0 (by decide)

/-! ## Claim C2 -/

/-- **C2 counterexample**: it is false that when N workers concurrently call
`trace` on the same live unmarked object the mark transition is a CAS that
succeeds for exactly one of them with exactly one enqueue in total.
`trace_object` tests the mark-bit with a plain load and then sets it with a
plain store (source lines 319-324 contain no compare-and-swap), so with two
workers whose mark-bit loads both happen before either store, both enqueue:
the completing schedule [0, 1, 0, 1] of two workers ends with two enqueues,
not one. -/
theorem trace_race_not_single_enqueue :
    (∀ i, (raceRun 2 [0, 1, 0, 1]).phase i = WPhase.finished) ∧
    (raceRun 2 [0, 1, 0, 1]).enqueues = 2 ∧
    (raceRun 2 [0, 1, 0, 1]).enqueues ≠ 1 :=
  ⟨by decide, by decide, by decide⟩

/-- The invariant of the tracing race: the mark-bit is set exactly when some
enqueue has happened; every finished worker has witnessed at least one
enqueue; and the enqueue count is bounded by the number of finished
workers. -/
def RaceInv {n : Nat} (st : RaceState n) : Prop :=
  (st.marked = decide (0 < st.enqueues)) ∧
  (∀ i, st.phase i = WPhase.finished → 0 < st.enqueues) ∧
  st.enqueues ≤ (Finset.univ.filter
    (fun i => st.phase i = WPhase.finished)).card

lemma raceInv_init (n : Nat) : RaceInv (raceInit n) := by
  refine ⟨rfl, ?_, ?_⟩ <;> simp [raceInit]

lemma raceInv_step {n : Nat} (st : RaceState n) (i : Fin n)
    (h : RaceInv st) : RaceInv (raceStep st i) := by
  obtain ⟨h1, h2, h3⟩ := h
  unfold raceStep
  cases hp : st.phase i with
  | load =>
    by_cases hm : st.marked
    · rw [if_pos hm]
      refine ⟨h1, ?_, ?_⟩
      · intro j _
        have hd : decide (0 < st.enqueues) = true := h1 ▸ hm
        exact of_decide_eq_true hd
      · refine le_trans h3 (Finset.card_le_card ?_)
        intro j hj
        simp only [Finset.mem_filter, Finset.mem_univ, true_and] at hj ⊢
        by_cases hji : j = i
        · simp [hji]
        · simp [hji, hj]
    · rw [if_neg hm]
      refine ⟨h1, ?_, ?_⟩
      · intro j hj
        simp only at hj
        by_cases hji : j = i
        · rw [if_pos hji] at hj
          exact absurd hj (by simp)
        · rw [if_neg hji] at hj
          exact h2 j hj
      · have hset : (Finset.univ.filter fun j =>
            (if j = i then WPhase.store else st.phase j) = WPhase.finished)
            = Finset.univ.filter (fun j => st.phase j = WPhase.finished) := by
          ext j
          simp only [Finset.mem_filter, Finset.mem_univ, true_and]
          by_cases hji : j = i
          · subst hji
            simp [hp]
          · simp [hji]
        simpa [hset] using h3
  | store =>
    refine ⟨by simp, fun j _ => Nat.succ_pos _, ?_⟩
    have hset : (Finset.univ.filter fun j =>
        (if j = i then WPhase.finished else st.phase j) = WPhase.finished)
        = insert i
            (Finset.univ.filter fun j => st.phase j = WPhase.finished) := by
      ext j
      simp only [Finset.mem_filter, Finset.mem_univ, true_and,
        Finset.mem_insert]
      by_cases hji : j = i
      · subst hji
        simp
      · simp [hji]
    have hnm : i ∉ Finset.univ.filter
        (fun j => st.phase j = WPhase.finished) := by
      simp [hp]
    simp only [hset]
    rw [Finset.card_insert_of_not_mem hnm]
    exact Nat.succ_le_succ h3
  | finished =>
    exact ⟨h1, h2, h3⟩

lemma raceInv_run (n : Nat) (sched : List (Fin n)) :
    RaceInv (raceRun n sched) := by
  have hgen : ∀ (l : List (Fin n)) (st : RaceState n),
      RaceInv st → RaceInv (l.foldl raceStep st) := by
    intro l
    induction l with
    | nil => exact fun st h => h
    | cons a l ih => exact fun st h => ih _ (raceInv_step st a h)
  exact hgen sched _ (raceInv_init n)

/-- **C2 (amended)**: when N workers concurrently call `trace` on the same
live unmarked object and all complete, the object ends marked, at least one
worker enqueues it, and each worker enqueues at most once (so the total is at
most N); but because the mark test and the mark set are two separate memory
operations (a load followed by a store — there is no CAS), interleavings in
which more than one worker enqueues the object exist. -/
theorem trace_race_bounds (n : Nat) (sched : List (Fin n)) (hn : 0 < n)
    (hdone : ∀ i, (raceRun n sched).phase i = WPhase.finished) :
    (raceRun n sched).marked = true ∧
    1 ≤ (raceRun n sched).enqueues ∧
    (raceRun n sched).enqueues ≤ n := by
  obtain ⟨h1, h2, h3⟩ := raceInv_run n sched
  have hpos : 0 < (raceRun n sched).enqueues := h2 ⟨0, hn⟩ (hdone ⟨0, hn⟩)
  refine ⟨?_, hpos, ?_⟩
  · rw [h1]
    simpa using hpos
  · calc (raceRun n sched).enqueues
        ≤ (Finset.univ.filter
            fun i => (raceRun n sched).phase i = WPhase.finished).card := h3
      _ ≤ Finset.univ.card := Finset.card_filter_le _ _
      _ = n := by simp

/-- Witness for the amended C2: a concrete completing schedule of two
workers ends marked with an enqueue count between 1 and 2. -/
theorem trace_race_bounds_witness :
    (raceRun 2 [0, 0, 1, 1]).marked = true ∧
    1 ≤ (raceRun 2 [0, 0, 1, 1]).enqueues ∧
    (raceRun 2 [0, 0, 1, 1]).enqueues ≤ 2 :=
  trace_race_bounds 2 [0, 0, 1, 1] (by decide) (by decide)

/-! ## Claim C7 -/

/-- State after a first allocation of the 10-byte block at the chunk-aligned
address 2048 (chunk size 2048 in `envEx`). -/
def c7s1 : State :=
  ((alloc envEx initState false true (2048, false)).getD
    ⟨0, initState, false⟩).s

/-- Outcome of a second allocation: a 16-byte block at 4080, whose usable
range ends exactly on the chunk boundary 4096. -/
def c7out : AllocOutcome :=
  (alloc envEx c7s1 false true (4080, false)).getD ⟨0, initState, false⟩

/-- **C7 counterexample**: after the second allocation returns A = 4080 with
usable size S = 16, the claimed bound `chunk_addr_max ≥ chunk_align_down(A+S)`
fails: `A + S = 4096` is exactly chunk-aligned, the block's single chunk 2048
is already metadata-mapped from the first allocation, so `alloc` skips
`map_metadata_and_update_bound` entirely and `chunk_addr_max` stays 2048,
strictly below `chunk_align_down(4096) = 4096`. -/
theorem chunk_bounds_counterexample :
    alloc envEx initState false true (2048, false)
      = some ⟨2048, c7s1, false⟩ ∧
    alloc envEx c7s1 false true (4080, false) = some c7out ∧
    c7out.ret = 4080 ∧
    envEx.usable 4080 false = 16 ∧
    alignDown (4080 + 16) envEx.chunk = 4096 ∧
    c7out.s.chunkMax = 2048 ∧
    ¬ alignDown (4080 + 16) envEx.chunk ≤ c7out.s.chunkMax :=
  ⟨rfl, rfl, by decide, by decide, by decide, by decide, by decide⟩

/-- The chunk-bounds invariant: every chunk whose side metadata has been
mapped lies inside the inclusive interval `[chunk_addr_min, chunk_addr_max]`. -/
def boundsInv (s : State) : Prop :=
  ∀ c, s.metaMapped c = true → s.chunkMin ≤ c ∧ c ≤ s.chunkMax

lemma mmaub_bounds (env : VMEnv) (s : State) (a n : Nat) :
    (map_metadata_and_update_bound env s a n).metaMapped
      = (map_meta_space env s a n).metaMapped ∧
    (map_metadata_and_update_bound env s a n).chunkMin
      = min s.chunkMin (alignDown a env.chunk) ∧
    (map_metadata_and_update_bound env s a n).chunkMax
      = max s.chunkMax (alignDown (a + n) env.chunk) := by
  unfold map_metadata_and_update_bound map_meta_space
  dsimp only
  split_ifs <;> refine ⟨rfl, ?_, ?_⟩ <;> dsimp only at * <;> omega

lemma allocSuccState_bounds_mapped (env : VMEnv) (s : State)
    (raw : Nat × Bool)
    (h : is_meta_space_mapped env s raw.1 (env.usable raw.1 raw.2) = true) :
    (allocSuccState env s raw).metaMapped = s.metaMapped ∧
    (allocSuccState env s raw).chunkMin = s.chunkMin ∧
    (allocSuccState env s raw).chunkMax = s.chunkMax := by
  unfold allocSuccState set_offset_malloc_bit
  dsimp only
  simp only [h, Bool.not_true, Bool.false_eq_true, if_false]
  split_ifs <;> exact ⟨rfl, rfl, rfl⟩

lemma allocSuccState_bounds_unmapped (env : VMEnv) (s : State)
    (raw : Nat × Bool)
    (h : is_meta_space_mapped env s raw.1 (env.usable raw.1 raw.2) = false) :
    (allocSuccState env s raw).metaMapped
      = (map_meta_space env s raw.1 (env.usable raw.1 raw.2)).metaMapped ∧
    (allocSuccState env s raw).chunkMin
      = min s.chunkMin (alignDown raw.1 env.chunk) ∧
    (allocSuccState env s raw).chunkMax
      = max s.chunkMax
          (alignDown (raw.1 + env.usable raw.1 raw.2) env.chunk) := by
  have hb := mmaub_bounds env s raw.1 (env.usable raw.1 raw.2)
  unfold allocSuccState set_offset_malloc_bit sft_update
  dsimp only
  simp only [h, Bool.not_false, if_true]
  split_ifs <;> exact ⟨hb.1, hb.2.1, hb.2.2⟩

lemma chunkCount_pos (env : VMEnv) (addr size : Nat) (hchunk : 0 < env.chunk)
    (hS : 0 < size) : 0 < chunkCount env addr size := by
  have h1 := alignDown_le addr env.chunk
  have h2 := (lt_ceilDiv_iff 0 (addr + size - alignDown addr env.chunk)
    env.chunk hchunk).mpr (by omega)
  unfold chunkCount
  exact h2

lemma grid_lt (env : VMEnv) (addr size : Nat) (hchunk : 0 < env.chunk)
    (i : Nat) :
    i < chunkCount env addr size ↔
      alignDown addr env.chunk + i * env.chunk < addr + size := by
  unfold chunkCount
  rw [lt_ceilDiv_iff _ _ _ hchunk]
  have h1 := alignDown_le addr env.chunk
  omega

lemma mapped_grid_mem (env : VMEnv) (s : State) (addr size : Nat) (c : Nat) :
    (map_meta_space env s addr size).metaMapped c = true ↔
      (∃ i, i < chunkCount env addr size ∧
        c = alignDown addr env.chunk + i * env.chunk) ∨
      s.metaMapped c = true := by
  simp [map_meta_space, List.any_eq_true, List.mem_range]

lemma is_meta_space_mapped_all (env : VMEnv) (s : State) (addr size : Nat)
    (h : is_meta_space_mapped env s addr size = true) :
    ∀ i, i < chunkCount env addr size →
      s.metaMapped (alignDown addr env.chunk + i * env.chunk) = true := by
  intro i hi
  simp [is_meta_space_mapped, List.all_eq_true] at h
  exact h i hi

lemma last_chunk_mem (env : VMEnv) (addr size : Nat) (hchunk : 0 < env.chunk)
    (hS : 0 < size) :
    ∃ i, i < chunkCount env addr size ∧
      alignDown (addr + size - 1) env.chunk
        = alignDown addr env.chunk + i * env.chunk := by
  have hle : alignDown addr env.chunk
      ≤ alignDown (addr + size - 1) env.chunk :=
    alignDown_mono env.chunk (by omega)
  obtain ⟨k, hk⟩ := Nat.dvd_sub' (alignDown_dvd (addr + size - 1) env.chunk)
    (alignDown_dvd addr env.chunk)
  rw [Nat.mul_comm] at hk
  have h2 := alignDown_le (addr + size - 1) env.chunk
  refine ⟨k, ?_, by omega⟩
  rw [grid_lt env addr size hchunk]
  omega

/-- **C7 (amended)**: provided every metadata-mapped chunk already lies in
`[chunk_addr_min, chunk_addr_max]` (an invariant that holds initially and is
preserved), a successful allocation of A with usable size S > 0 gives
`chunk_addr_min ≤ chunk_align_down(A)` and
`chunk_addr_max ≥ chunk_align_down(A + S - 1)` — the last chunk actually
containing block bytes, rather than the claim's `chunk_align_down(A+S)` —
preserves the invariant, and only ever lowers `chunk_addr_min` and raises
`chunk_addr_max`. -/
theorem chunk_bounds_invariant (env : VMEnv) (s : State)
    (pollRes mutator : Bool) (raw : Nat × Bool) (o : AllocOutcome)
    (hchunk : 0 < env.chunk) (hinv : boundsInv s)
    (h : alloc env s pollRes mutator raw = some o) (hret : o.ret ≠ 0)
    (hS : 0 < env.usable o.ret raw.2) :
    boundsInv o.s ∧
    o.s.chunkMin ≤ alignDown o.ret env.chunk ∧
    alignDown (o.ret + env.usable o.ret raw.2 - 1) env.chunk
      ≤ o.s.chunkMax ∧
    o.s.chunkMin ≤ s.chunkMin ∧ s.chunkMax ≤ o.s.chunkMax := by
  obtain ⟨hp, hr, hb, hs⟩ := alloc_some_nonnull env s pollRes mutator raw o h hret
  rw [hr] at hS
  rw [hs, hr]
  cases hmap : is_meta_space_mapped env s raw.1 (env.usable raw.1 raw.2) with
  | true =>
    obtain ⟨hm1, hm2, hm3⟩ := allocSuccState_bounds_mapped env s raw hmap
    have hcc := chunkCount_pos env raw.1 (env.usable raw.1 raw.2) hchunk hS
    have hall := is_meta_space_mapped_all env s raw.1
      (env.usable raw.1 raw.2) hmap
    have hc0 : s.metaMapped (alignDown raw.1 env.chunk) = true := by
      have h0 := hall 0 hcc
      simpa using h0
    obtain ⟨i, hi, hieq⟩ := last_chunk_mem env raw.1
      (env.usable raw.1 raw.2) hchunk hS
    have hcl : s.metaMapped
        (alignDown (raw.1 + env.usable raw.1 raw.2 - 1) env.chunk) = true := by
      rw [hieq]
      exact hall i hi
    refine ⟨?_, ?_, ?_, ?_, ?_⟩
    · intro c hc
      rw [hm1] at hc
      rw [hm2, hm3]
      exact hinv c hc
    · rw [hm2]
      exact (hinv _ hc0).1
    · rw [hm3]
      exact (hinv _ hcl).2
    · rw [hm2]
    · rw [hm3]
  | false =>
    obtain ⟨hm1, hm2, hm3⟩ := allocSuccState_bounds_unmapped env s raw hmap
    refine ⟨?_, ?_, ?_, ?_, ?_⟩
    · intro c hc
      rw [hm1] at hc
      rw [hm2, hm3]
      rcases (mapped_grid_mem env s raw.1 (env.usable raw.1 raw.2) c).mp hc
        with ⟨i, hi, hceq⟩ | hold
      · constructor
        · rw [hceq]
          exact le_trans (min_le_right _ _) (Nat.le_add_right _ _)
        · have hlt : c < raw.1 + env.usable raw.1 raw.2 := by
            rw [hceq]
            exact (grid_lt env raw.1 _ hchunk i).mp hi
          have hdvd : env.chunk ∣ c := by
            rw [hceq]
            exact Nat.dvd_add (alignDown_dvd _ _) (dvd_mul_left _ _)
          exact le_trans (le_alignDown hchunk hdvd (le_of_lt hlt))
            (le_max_right _ _)
      · obtain ⟨g1, g2⟩ := hinv c hold
        exact ⟨le_trans (min_le_left _ _) g1, le_trans g2 (le_max_left _ _)⟩
    · rw [hm2]
      exact min_le_right _ _
    · rw [hm3]
      have hmono : alignDown (raw.1 + env.usable raw.1 raw.2 - 1) env.chunk
          ≤ alignDown (raw.1 + env.usable raw.1 raw.2) env.chunk :=
        alignDown_mono env.chunk (by omega)
      exact le_trans hmono (le_max_right _ _)
    · rw [hm2]
      exact min_le_left _ _
    · rw [hm3]
      exact le_max_left _ _

/-- Witness for the amended C7: a concrete fresh allocation at 4096
establishes both bounds and the invariant. -/
theorem chunk_bounds_invariant_witness :
    boundsInv allocOut4096.s ∧
    allocOut4096.s.chunkMin ≤ alignDown allocOut4096.ret envEx.chunk ∧
    alignDown (allocOut4096.ret + envEx.usable allocOut4096.ret false - 1)
      envEx.chunk ≤ allocOut4096.s.chunkMax ∧
    allocOut4096.s.chunkMin ≤ initState.chunkMin ∧
    initState.chunkMax ≤ allocOut4096.s.chunkMax :=
  chunk_bounds_invariant envEx initState false true (4096, false) allocOut4096
    (by decide) (fun c hc => absurd hc (by simp [initState])) rfl (by decide)
    (by decide)

/-! ## Well-formedness of a heap for sweeping

The sweep claims hold of heaps in which metadata bits describe real objects:
mark-bits imply alloc-bits (spec section 3 invariant), alloc-bits sit on the
bitmap granule grid, distinct objects have disjoint extents (no other
alloc-bit inside the span the iterator skips) and distinct malloc blocks,
and object start addresses are nonzero (the null page is never returned by
the allocator). -/
structure SweepWF (env : VMEnv) (s : State) : Prop where
  hmark : ∀ a, s.markBit a = true → s.allocBit a = true
  hgrid : ∀ a, s.allocBit a = true → env.region ∣ a
  hdisj : ∀ a c, s.allocBit a = true → a < c → c < a + iterStep env s a →
    s.allocBit c = false
  hinj : ∀ a b, s.allocBit a = true → s.allocBit b = true → a ≠ b →
    env.objStart a ≠ env.objStart b
  hstart : ∀ a, s.allocBit a = true → 0 < env.objStart a

lemma SweepWF_transfer (env : VMEnv) (s s2 : State) (wf : SweepWF env s)
    (T1 : ∀ a, s2.markBit a = true → s.markBit a = true)
    (T2 : ∀ a, s2.allocBit a = true → s.allocBit a = true)
    (T3 : ∀ a, s.allocBit a = true → s2.markBit a = true →
      s2.allocBit a = true)
    (T4 : ∀ a, s2.allocBit a = true →
      s2.offsetMalloc (env.objStart a) = s.offsetMalloc (env.objStart a)) :
    SweepWF env s2 := by
  have hstep : ∀ a, s2.allocBit a = true →
      iterStep env s2 a = iterStep env s a := by
    intro a ha
    unfold iterStep objectSize get_malloc_addr_size is_offset_malloc
    dsimp only
    rw [T4 a ha]
  refine ⟨?_, ?_, ?_, ?_, ?_⟩
  · intro a hm
    exact T3 a (wf.hmark a (T1 a hm)) hm
  · intro a ha
    exact wf.hgrid a (T2 a ha)
  · intro a c ha hac hcs
    rw [hstep a ha] at hcs
    cases hcb : s2.allocBit c with
    | false => rfl
    | true =>
      have h1 := T2 c hcb
      rw [wf.hdisj a c (T2 a ha) hac hcs] at h1
      exact absurd h1 (by simp)
  · intro a b ha hb hab
    exact wf.hinj a b (T2 a ha) (T2 b hb) hab
  · intro a ha
    exact wf.hstart a (T2 a ha)

/-- The state produced by sweeping the dead object at `c`. -/
def deadSweepState (env : VMEnv) (s : State) (c : Nat) : State :=
  unset_alloc_bit_unsafe
    (free_internal s (env.objStart c) (objectSize env s c)
      (s.offsetMalloc (env.objStart c))) c

/-- The state produced by sweeping the live object at `c` (page marks of the
empty run before it cleared when `eps` is nonzero). -/
def liveSweepState (env : VMEnv) (s : State) (c eps : Nat) : State :=
  if eps ≠ 0 then unset_page_marks s eps (alignDown c env.page) env.page
  else s

lemma sweep_object_dead2 (env : VMEnv) (s : State) (object eps : Nat)
    (hm : s.markBit object = false) :
    sweep_object env s object eps
      = (true, deadSweepState env s object, eps) := by
  rw [sweep_object_dead env s object eps hm]
  rfl

lemma sweep_object_live2 (env : VMEnv) (s : State) (object eps : Nat)
    (hm : s.markBit object = true) :
    sweep_object env s object eps
      = (false, liveSweepState env s object eps,
         alignUp (env.objStart object + objectSize env s object) env.page) := by
  rw [sweep_object_live env s object eps hm]
  rfl

lemma deadSweepState_fields (env : VMEnv) (s : State) (c : Nat) :
    (deadSweepState env s c).markBit = s.markBit ∧
    (deadSweepState env s c).allocBit = setBit s.allocBit c false ∧
    (deadSweepState env s c).pageMark = s.pageMark ∧
    (deadSweepState env s c).chunkMark = s.chunkMark ∧
    (deadSweepState env s c).sftMap = s.sftMap ∧
    (deadSweepState env s c).metaMapped = s.metaMapped ∧
    ∀ x, x ≠ env.objStart c →
      (deadSweepState env s c).offsetMalloc x = s.offsetMalloc x := by
  have hf := free_internal_fields s (env.objStart c) (objectSize env s c)
    (s.offsetMalloc (env.objStart c))
  unfold deadSweepState unset_alloc_bit_unsafe
  exact ⟨hf.2.2.1, by rw [hf.2.1], hf.2.2.2.1, hf.2.2.2.2.1,
    hf.2.2.2.2.2.2.1, hf.2.2.2.2.2.1, hf.2.2.2.2.2.2.2⟩

lemma liveSweepState_fields (env : VMEnv) (s : State) (c eps : Nat) :
    (liveSweepState env s c eps).markBit = s.markBit ∧
    (liveSweepState env s c eps).allocBit = s.allocBit ∧
    (liveSweepState env s c eps).chunkMark = s.chunkMark ∧
    (liveSweepState env s c eps).sftMap = s.sftMap ∧
    (liveSweepState env s c eps).metaMapped = s.metaMapped ∧
    (liveSweepState env s c eps).offsetMalloc = s.offsetMalloc ∧
    (liveSweepState env s c eps).activeBytes = s.activeBytes := by
  unfold liveSweepState unset_page_marks
  split_ifs <;> exact ⟨rfl, rfl, rfl, rfl, rfl, rfl, rfl⟩

lemma SweepWF_dead (env : VMEnv) (s : State) (c : Nat) (wf : SweepWF env s)
    (hmc : s.markBit c = false) (hac : s.allocBit c = true) :
    SweepWF env (deadSweepState env s c) := by
  obtain ⟨f1, f2, f3, f4, f5, f6, f7⟩ := deadSweepState_fields env s c
  apply SweepWF_transfer env s _ wf
  · intro a hm
    rwa [f1] at hm
  · intro a ha
    rw [f2] at ha
    unfold setBit at ha
    by_cases hc : a = c
    · rw [if_pos hc] at ha
      exact absurd ha (by simp)
    · rwa [if_neg hc] at ha
  · intro a ha hm
    rw [f1] at hm
    rw [f2]
    unfold setBit
    by_cases hc : a = c
    · subst hc
      rw [hm] at hmc
      exact absurd hmc (by simp)
    · rw [if_neg hc]
      exact ha
  · intro a ha
    rw [f2] at ha
    unfold setBit at ha
    by_cases hc : a = c
    · rw [if_pos hc] at ha
      exact absurd ha (by simp)
    · rw [if_neg hc] at ha
      exact f7 _ (wf.hinj a c ha hac hc)

lemma SweepWF_live (env : VMEnv) (s : State) (c eps : Nat)
    (wf : SweepWF env s) : SweepWF env (liveSweepState env s c eps) := by
  obtain ⟨f1, f2, f3, f4, f5, f6, f7⟩ := liveSweepState_fields env s c eps
  apply SweepWF_transfer env s _ wf
  · intro a hm
    rwa [f1] at hm
  · intro a ha
    rwa [f2] at ha
  · intro a ha _
    rw [f2]
    exact ha
  · intro a _
    rw [f6]

lemma SweepWF_unset_mark (env : VMEnv) (s : State) (c : Nat)
    (ord : Option MemOrder) (wf : SweepWF env s) :
    SweepWF env (unset_mark_bit s c ord) := by
  apply SweepWF_transfer env s _ wf
  · intro a hm
    simp only [unset_mark_bit, setBit] at hm
    by_cases hc : a = c
    · rw [if_pos hc] at hm
      exact absurd hm (by simp)
    · rwa [if_neg hc] at hm
  · intro a ha
    exact ha
  · intro a ha _
    exact ha
  · intro a _
    rfl

/-! ## One-step unfolding lemmas for the linear sweep loop -/

lemma sweep_loop_exit (env : VMEnv) (cm : Bool) (endA : Nat) (fuel : Nat)
    (cursor : Nat) (s : State) (eps : Nat) (h : ¬ cursor < endA) :
    sweep_loop env cm endA fuel cursor s eps = (s, eps) := by
  cases fuel <;> simp [sweep_loop, h]

lemma sweep_loop_succ_notalloc (env : VMEnv) (cm : Bool) (endA : Nat)
    (fuel : Nat) (cursor : Nat) (s : State) (eps : Nat)
    (hlt : cursor < endA) (hac : s.allocBit cursor = false) :
    sweep_loop env cm endA (fuel + 1) cursor s eps
      = sweep_loop env cm endA fuel (cursor + env.region) s eps := by
  simp only [sweep_loop]
  rw [if_pos hlt, hac]
  simp

lemma sweep_loop_succ_dead (env : VMEnv) (cm : Bool) (endA : Nat)
    (fuel : Nat) (cursor : Nat) (s : State) (eps : Nat)
    (hlt : cursor < endA) (hac : s.allocBit cursor = true)
    (hmc : s.markBit cursor = false) :
    sweep_loop env cm endA (fuel + 1) cursor s eps
      = sweep_loop env cm endA fuel (cursor + iterStep env s cursor)
          (deadSweepState env s cursor) eps := by
  simp only [sweep_loop]
  rw [if_pos hlt, hac, sweep_object_dead2 env s cursor eps hmc]
  simp

lemma sweep_loop_succ_live (env : VMEnv) (cm : Bool) (endA : Nat)
    (fuel : Nat) (cursor : Nat) (s : State) (eps : Nat)
    (hlt : cursor < endA) (hac : s.allocBit cursor = true)
    (hmc : s.markBit cursor = true) :
    sweep_loop env cm endA (fuel + 1) cursor s eps
      = sweep_loop env cm endA fuel (cursor + iterStep env s cursor)
          (if cm then
            unset_mark_bit (liveSweepState env s cursor eps) cursor none
           else liveSweepState env s cursor eps)
          (alignUp (env.objStart cursor + objectSize env s cursor)
            env.page) := by
  simp only [sweep_loop]
  rw [if_pos hlt, hac, sweep_object_live2 env s cursor eps hmc]
  cases cm <;> simp

/-- The fields of the state installed by a live sweep step (page-mark
clearing plus, for the header sweep, the mark-bit unset of the survivor). -/
lemma liveStep_fields (env : VMEnv) (cm : Bool) (s : State) (c eps : Nat) :
    (if cm then unset_mark_bit (liveSweepState env s c eps) c none
     else liveSweepState env s c eps).chunkMark = s.chunkMark ∧
    (if cm then unset_mark_bit (liveSweepState env s c eps) c none
     else liveSweepState env s c eps).sftMap = s.sftMap ∧
    (if cm then unset_mark_bit (liveSweepState env s c eps) c none
     else liveSweepState env s c eps).metaMapped = s.metaMapped ∧
    (if cm then unset_mark_bit (liveSweepState env s c eps) c none
     else liveSweepState env s c eps).allocBit = s.allocBit ∧
    (if cm then unset_mark_bit (liveSweepState env s c eps) c none
     else liveSweepState env s c eps).offsetMalloc = s.offsetMalloc ∧
    ∀ a, (if cm then unset_mark_bit (liveSweepState env s c eps) c none
     else liveSweepState env s c eps).markBit a = true →
      s.markBit a = true := by
  obtain ⟨l1, l2, l3, l4, l5, l6, l7⟩ := liveSweepState_fields env s c eps
  split_ifs with hcm
  · refine ⟨l3, l4, l5, l2, l6, ?_⟩
    intro a h
    simp only [unset_mark_bit, setBit] at h
    by_cases hc : a = c
    · rw [if_pos hc] at h
      exact absurd h (by simp)
    · rw [if_neg hc] at h
      rw [← l1]
      exact h
  · refine ⟨l3, l4, l5, l2, l6, ?_⟩
    intro a h
    rw [← l1]
    exact h

lemma liveStep_WF (env : VMEnv) (cm : Bool) (s : State) (c eps : Nat)
    (wf : SweepWF env s) :
    SweepWF env (if cm then
      unset_mark_bit (liveSweepState env s c eps) c none
     else liveSweepState env s c eps) := by
  split_ifs with hcm
  · exact SweepWF_unset_mark env _ c none (SweepWF_live env s c eps wf)
  · exact SweepWF_live env s c eps wf

/-! ## Loop invariant lemmas -/

lemma sweep_loop_mark_mono (env : VMEnv) (cm : Bool) (endA : Nat) :
    ∀ fuel cursor s eps a, s.markBit a = false →
      (sweep_loop env cm endA fuel cursor s eps).1.markBit a = false := by
  intro fuel
  induction fuel with
  | zero =>
    intro cursor s eps a h
    exact h
  | succ fuel ih =>
    intro cursor s eps a h
    by_cases hlt : cursor < endA
    · cases hac : s.allocBit cursor with
      | true =>
        cases hmc : s.markBit cursor with
        | false =>
          rw [sweep_loop_succ_dead env cm endA fuel cursor s eps hlt hac hmc]
          apply ih
          rw [(deadSweepState_fields env s cursor).1]
          exact h
        | true =>
          rw [sweep_loop_succ_live env cm endA fuel cursor s eps hlt hac hmc]
          apply ih
          cases hm2 : (if cm then
              unset_mark_bit (liveSweepState env s cursor eps) cursor none
            else liveSweepState env s cursor eps).markBit a with
          | false => rfl
          | true =>
            have := (liveStep_fields env cm s cursor eps).2.2.2.2.2 a hm2
            rw [this] at h
            exact absurd h (by simp)
      | false =>
        rw [sweep_loop_succ_notalloc env cm endA fuel cursor s eps hlt hac]
        exact ih _ s eps a h
    · rw [sweep_loop_exit env cm endA _ cursor s eps hlt]
      exact h

lemma sweep_loop_frame (env : VMEnv) (cm : Bool) (endA : Nat) :
    ∀ fuel cursor s eps,
      (sweep_loop env cm endA fuel cursor s eps).1.chunkMark = s.chunkMark ∧
      (sweep_loop env cm endA fuel cursor s eps).1.sftMap = s.sftMap ∧
      (sweep_loop env cm endA fuel cursor s eps).1.metaMapped
        = s.metaMapped ∧
      (∀ a, (sweep_loop env cm endA fuel cursor s eps).1.allocBit a = true →
        s.allocBit a = true) := by
  intro fuel
  induction fuel with
  | zero =>
    intro cursor s eps
    exact ⟨rfl, rfl, rfl, fun a h => h⟩
  | succ fuel ih =>
    intro cursor s eps
    by_cases hlt : cursor < endA
    · cases hac : s.allocBit cursor with
      | true =>
        cases hmc : s.markBit cursor with
        | false =>
          rw [sweep_loop_succ_dead env cm endA fuel cursor s eps hlt hac hmc]
          obtain ⟨d1, d2, d3, d4, d5, d6, d7⟩ :=
            deadSweepState_fields env s cursor
          obtain ⟨i1, i2, i3, i4⟩ := ih (cursor + iterStep env s cursor)
            (deadSweepState env s cursor) eps
          refine ⟨by rw [i1, d4], by rw [i2, d5], by rw [i3, d6], ?_⟩
          intro a hh
          have h2 := i4 a hh
          rw [d2] at h2
          unfold setBit at h2
          by_cases hc : a = cursor
          · rw [if_pos hc] at h2
            exact absurd h2 (by simp)
          · rwa [if_neg hc] at h2
        | true =>
          rw [sweep_loop_succ_live env cm endA fuel cursor s eps hlt hac hmc]
          obtain ⟨m1, m2, m3, m4, m5, m6⟩ := liveStep_fields env cm s cursor eps
          obtain ⟨i1, i2, i3, i4⟩ := ih (cursor + iterStep env s cursor) _
            (alignUp (env.objStart cursor + objectSize env s cursor) env.page)
          refine ⟨by rw [i1, m1], by rw [i2, m2], by rw [i3, m3], ?_⟩
          intro a hh
          have h2 := i4 a hh
          rw [m4] at h2
          exact h2
      | false =>
        rw [sweep_loop_succ_notalloc env cm endA fuel cursor s eps hlt hac]
        exact ih _ s eps
    · rw [sweep_loop_exit env cm endA _ cursor s eps hlt]
      exact ⟨rfl, rfl, rfl, fun a h => h⟩

lemma sweep_loop_side_marks (env : VMEnv) (endA : Nat) :
    ∀ fuel cursor s eps,
      (sweep_loop env false endA fuel cursor s eps).1.markBit
        = s.markBit := by
  intro fuel
  induction fuel with
  | zero =>
    intro cursor s eps
    rfl
  | succ fuel ih =>
    intro cursor s eps
    by_cases hlt : cursor < endA
    · cases hac : s.allocBit cursor with
      | true =>
        cases hmc : s.markBit cursor with
        | false =>
          rw [sweep_loop_succ_dead env false endA fuel cursor s eps hlt hac
            hmc, ih, (deadSweepState_fields env s cursor).1]
        | true =>
          rw [sweep_loop_succ_live env false endA fuel cursor s eps hlt hac
            hmc, ih, if_neg (by simp), (liveSweepState_fields env s cursor eps).1]
      | false =>
        rw [sweep_loop_succ_notalloc env false endA fuel cursor s eps hlt hac,
          ih]
    · rw [sweep_loop_exit env false endA _ cursor s eps hlt]

lemma sweep_loop_WF (env : VMEnv) (cm : Bool) (endA : Nat) :
    ∀ fuel cursor s eps, SweepWF env s →
      SweepWF env (sweep_loop env cm endA fuel cursor s eps).1 := by
  intro fuel
  induction fuel with
  | zero =>
    intro cursor s eps wf
    exact wf
  | succ fuel ih =>
    intro cursor s eps wf
    by_cases hlt : cursor < endA
    · cases hac : s.allocBit cursor with
      | true =>
        cases hmc : s.markBit cursor with
        | false =>
          rw [sweep_loop_succ_dead env cm endA fuel cursor s eps hlt hac hmc]
          exact ih _ _ _ (SweepWF_dead env s cursor wf hmc hac)
        | true =>
          rw [sweep_loop_succ_live env cm endA fuel cursor s eps hlt hac hmc]
          exact ih _ _ _ (liveStep_WF env cm s cursor eps wf)
      | false =>
        rw [sweep_loop_succ_notalloc env cm endA fuel cursor s eps hlt hac]
        exact ih _ _ _ wf
    · rw [sweep_loop_exit env cm endA _ cursor s eps hlt]
      exact wf

lemma sweep_loop_eps_no_marks (env : VMEnv) (cm : Bool) (endA : Nat) :
    ∀ fuel cursor s eps,
      (∀ a, cursor ≤ a → a < endA → s.markBit a = false) →
      (sweep_loop env cm endA fuel cursor s eps).2 = eps := by
  intro fuel
  induction fuel with
  | zero =>
    intro cursor s eps _
    rfl
  | succ fuel ih =>
    intro cursor s eps h
    by_cases hlt : cursor < endA
    · cases hac : s.allocBit cursor with
      | true =>
        have hmc : s.markBit cursor = false := h cursor (le_refl _) hlt
        rw [sweep_loop_succ_dead env cm endA fuel cursor s eps hlt hac hmc]
        apply ih
        intro a h1 h2
        rw [(deadSweepState_fields env s cursor).1]
        exact h a (le_trans (Nat.le_add_right _ _) h1) h2
      | false =>
        rw [sweep_loop_succ_notalloc env cm endA fuel cursor s eps hlt hac]
        apply ih
        intro a h1 h2
        exact h a (le_trans (Nat.le_add_right _ _) h1) h2
    · rw [sweep_loop_exit env cm endA _ cursor s eps hlt]

lemma sweep_loop_eps_pos (env : VMEnv) (cm : Bool) (endA : Nat)
    (hpage : 0 < env.page) :
    ∀ fuel cursor s eps, SweepWF env s → eps ≠ 0 →
      (sweep_loop env cm endA fuel cursor s eps).2 ≠ 0 := by
  intro fuel
  induction fuel with
  | zero =>
    intro cursor s eps _ he
    exact he
  | succ fuel ih =>
    intro cursor s eps wf he
    by_cases hlt : cursor < endA
    · cases hac : s.allocBit cursor with
      | true =>
        cases hmc : s.markBit cursor with
        | false =>
          rw [sweep_loop_succ_dead env cm endA fuel cursor s eps hlt hac hmc]
          exact ih _ _ _ (SweepWF_dead env s cursor wf hmc hac) he
        | true =>
          rw [sweep_loop_succ_live env cm endA fuel cursor s eps hlt hac hmc]
          apply ih _ _ _ (liveStep_WF env cm s cursor eps wf)
          have h0 := wf.hstart cursor hac
          have h1 : 0 < alignUp (env.objStart cursor + objectSize env s cursor)
              env.page := alignUp_pos _ _ (by omega) hpage
          omega
      | false =>
        rw [sweep_loop_succ_notalloc env cm endA fuel cursor s eps hlt hac]
        exact ih _ _ _ wf he
    · rw [sweep_loop_exit env cm endA _ cursor s eps hlt]
      exact he

lemma sweep_loop_eps_mark (env : VMEnv) (cm : Bool) (endA : Nat)
    (hreg : 0 < env.region) (hpage : 0 < env.page) :
    ∀ fuel cursor s eps, SweepWF env s → env.region ∣ cursor →
      endA ≤ cursor + fuel →
      (∃ g, cursor ≤ g ∧ g < endA ∧ s.markBit g = true) →
      (sweep_loop env cm endA fuel cursor s eps).2 ≠ 0 := by
  intro fuel
  induction fuel with
  | zero =>
    intro cursor s eps _ _ hfuel hex
    obtain ⟨g, hg1, hg2, _⟩ := hex
    omega
  | succ fuel ih =>
    intro cursor s eps wf hdvd hfuel hex
    obtain ⟨g, hg1, hg2, hgm⟩ := hex
    by_cases hlt : cursor < endA
    · cases hac : s.allocBit cursor with
      | true =>
        cases hmc : s.markBit cursor with
        | true =>
          rw [sweep_loop_succ_live env cm endA fuel cursor s eps hlt hac hmc]
          apply sweep_loop_eps_pos env cm endA hpage fuel _ _ _
            (liveStep_WF env cm s cursor eps wf)
          have h0 := wf.hstart cursor hac
          have h1 : 0 < alignUp (env.objStart cursor + objectSize env s cursor)
              env.page := alignUp_pos _ _ (by omega) hpage
          omega
        | false =>
          have hgc : g ≠ cursor := by
            intro hgc
            rw [hgc, hmc] at hgm
            exact absurd hgm (by simp)
          have hgstep : cursor + iterStep env s cursor ≤ g := by
            by_contra hcon
            push_neg at hcon
            have hgcur : cursor < g := lt_of_le_of_ne hg1 (Ne.symm hgc)
            have hd := wf.hdisj cursor g hac hgcur hcon
            have ha := wf.hmark g hgm
            rw [hd] at ha
            exact absurd ha (by simp)
          rw [sweep_loop_succ_dead env cm endA fuel cursor s eps hlt hac hmc]
          refine ih _ _ _ (SweepWF_dead env s cursor wf hmc hac)
            (dvd_add hdvd (region_dvd_iterStep env s cursor)) ?_ ?_
          · have hst := region_le_iterStep env s cursor
            omega
          · refine ⟨g, hgstep, hg2, ?_⟩
            rw [(deadSweepState_fields env s cursor).1]
            exact hgm
      | false =>
        have hgc : g ≠ cursor := by
          intro hgc
          rw [hgc] at hgm
          have ha := wf.hmark cursor hgm
          rw [hac] at ha
          exact absurd ha (by simp)
        have hreg2 : cursor + env.region ≤ g := by
          have hgcur : cursor < g := lt_of_le_of_ne hg1 (Ne.symm hgc)
          exact grid_gap hdvd (wf.hgrid g (wf.hmark g hgm)) hgcur
        rw [sweep_loop_succ_notalloc env cm endA fuel cursor s eps hlt hac]
        refine ih _ _ _ wf (dvd_add hdvd dvd_rfl) ?_ ?_
        · omega
        · exact ⟨g, hreg2, hg2, hgm⟩
    · omega

/-- The header sweep's scan clears the mark-bit of every address in the
scanned range of a well-formed heap. -/
lemma sweep_loop_clears (env : VMEnv) (endA : Nat) (hreg : 0 < env.region) :
    ∀ fuel cursor s eps, SweepWF env s → env.region ∣ cursor →
      endA ≤ cursor + fuel →
      ∀ a, cursor ≤ a → a < endA →
      (sweep_loop env true endA fuel cursor s eps).1.markBit a = false := by
  intro fuel
  induction fuel with
  | zero =>
    intro cursor s eps _ _ hfuel a h1 h2
    exact absurd h2 (by omega)
  | succ fuel ih =>
    intro cursor s eps wf hdvd hfuel a h1 h2
    by_cases hlt : cursor < endA
    · cases hac : s.allocBit cursor with
      | true =>
        cases hmc : s.markBit cursor with
        | false =>
          rw [sweep_loop_succ_dead env true endA fuel cursor s eps hlt hac hmc]
          by_cases hstep : cursor + iterStep env s cursor ≤ a
          · refine ih _ _ _ (SweepWF_dead env s cursor wf hmc hac)
              (dvd_add hdvd (region_dvd_iterStep env s cursor)) ?_ a hstep h2
            have hst := region_le_iterStep env s cursor
            omega
          · push_neg at hstep
            have hma : s.markBit a = false := by
              cases hm : s.markBit a with
              | false => rfl
              | true =>
                have haa := wf.hmark a hm
                by_cases hae : a = cursor
                · rw [hae] at hm
                  rw [hmc] at hm
                  exact absurd hm (by simp)
                · have hlt2 : cursor < a := lt_of_le_of_ne h1 (Ne.symm hae)
                  have hfa := wf.hdisj cursor a hac hlt2 hstep
                  rw [hfa] at haa
                  exact absurd haa (by simp)
            apply sweep_loop_mark_mono
            rw [(deadSweepState_fields env s cursor).1]
            exact hma
        | true =>
          rw [sweep_loop_succ_live env true endA fuel cursor s eps hlt hac hmc]
          by_cases hstep : cursor + iterStep env s cursor ≤ a
          · refine ih _ _ _ (liveStep_WF env true s cursor eps wf)
              (dvd_add hdvd (region_dvd_iterStep env s cursor)) ?_ a hstep h2
            have hst := region_le_iterStep env s cursor
            omega
          · push_neg at hstep
            apply sweep_loop_mark_mono
            rw [if_pos rfl]
            simp only [unset_mark_bit, setBit]
            by_cases hae : a = cursor
            · rw [if_pos hae]
            · rw [if_neg hae, (liveSweepState_fields env s cursor eps).1]
              cases hm : s.markBit a with
              | false => rfl
              | true =>
                have haa := wf.hmark a hm
                have hlt2 : cursor < a := lt_of_le_of_ne h1 (Ne.symm hae)
                have hfa := wf.hdisj cursor a hac hlt2 hstep
                rw [hfa] at haa
                exact absurd haa (by simp)
      | false =>
        rw [sweep_loop_succ_notalloc env true endA fuel cursor s eps hlt hac]
        by_cases hstep : cursor + env.region ≤ a
        · exact ih _ _ _ wf (dvd_add hdvd dvd_rfl) (by omega) a hstep h2
        · push_neg at hstep
          apply sweep_loop_mark_mono
          cases hm : s.markBit a with
          | false => rfl
          | true =>
            have haa := wf.hmark a hm
            have hga := wf.hgrid a haa
            by_cases hae : a = cursor
            · rw [hae] at haa
              rw [hac] at haa
              exact absurd haa (by simp)
            · have hlt2 : cursor < a := lt_of_le_of_ne h1 (Ne.symm hae)
              have hgap := grid_gap hdvd hga hlt2
              exact absurd hstep (by omega)
    · exact absurd h2 (by omega)

/-! ## Stride lemmas for the side-mark sweep -/

lemma bulk_pos (env : VMEnv) (hreg : 0 < env.region) : 0 < bulk env := by
  unfold bulk
  omega

lemma region_dvd_bulk (env : VMEnv) : env.region ∣ bulk env :=
  dvd_mul_left env.region 128

lemma anyAllocBit_iff (env : VMEnv) (s : State) (a : Nat) :
    anyAllocBit env s a = true ↔
      ∃ i, i < 128 ∧ s.allocBit (a + i * env.region) = true := by
  simp [anyAllocBit, List.any_eq_true, List.mem_range]

lemma anyBitDiff_false (env : VMEnv) (s : State) (a : Nat)
    (h : anyBitDiff env s a = false) :
    ∀ i, i < 128 → s.allocBit (a + i * env.region)
      = s.markBit (a + i * env.region) := by
  intro i hi
  unfold anyBitDiff at h
  rw [List.any_eq_false] at h
  have h2 := h i (List.mem_range.mpr hi)
  simpa using h2

lemma sweep_stride_marks (env : VMEnv) (s : State) (eps address : Nat) :
    (sweep_stride env s eps address).1.markBit = s.markBit := by
  unfold sweep_stride
  split_ifs with h1 h2
  · exact sweep_loop_side_marks env (address + bulk env) (bulk env) address
      s eps
  · rfl
  · rfl

lemma sweep_stride_frame (env : VMEnv) (s : State) (eps address : Nat) :
    (sweep_stride env s eps address).1.chunkMark = s.chunkMark ∧
    (sweep_stride env s eps address).1.sftMap = s.sftMap := by
  unfold sweep_stride
  split_ifs with h1 h2
  · have hf := sweep_loop_frame env false (address + bulk env) (bulk env)
      address s eps
    exact ⟨hf.1, hf.2.1⟩
  · exact ⟨rfl, rfl⟩
  · exact ⟨rfl, rfl⟩

lemma sweep_stride_WF (env : VMEnv) (s : State) (eps address : Nat)
    (wf : SweepWF env s) : SweepWF env (sweep_stride env s eps address).1 := by
  unfold sweep_stride
  split_ifs with h1 h2
  · exact sweep_loop_WF env false (address + bulk env) (bulk env) address
      s eps wf
  · exact wf
  · exact wf

lemma sweep_stride_eps_pos (env : VMEnv) (s : State) (eps address : Nat)
    (hreg : 0 < env.region) (hpage : 0 < env.page) (wf : SweepWF env s)
    (he : eps ≠ 0) : (sweep_stride env s eps address).2 ≠ 0 := by
  unfold sweep_stride
  split_ifs with h1 h2
  · exact sweep_loop_eps_pos env false (address + bulk env) hpage (bulk env)
      address s eps wf he
  · show address + bulk env ≠ 0
    have hb := bulk_pos env hreg
    omega
  · exact he

lemma sweep_stride_eps_no_marks (env : VMEnv) (s : State) (eps address : Nat)
    (hreg : 0 < env.region)
    (hmk : ∀ a, address ≤ a → a < address + bulk env → s.markBit a = false) :
    (sweep_stride env s eps address).2 = eps := by
  unfold sweep_stride
  split_ifs with h1 h2
  · exact sweep_loop_eps_no_marks env false (address + bulk env) (bulk env)
      address s eps hmk
  · exfalso
    obtain ⟨i, hi, hia⟩ := (anyAllocBit_iff env s address).mp h2
    have hdiff : anyBitDiff env s address = false := by
      cases hb : anyBitDiff env s address
      · rfl
      · exact absurd hb h1
    have heq := anyBitDiff_false env s address hdiff i hi
    have hmark : s.markBit (address + i * env.region) = true := by
      rw [← heq]
      exact hia
    have hlt : address + i * env.region < address + bulk env := by
      unfold bulk
      have hm2 : i * env.region < 128 * env.region :=
        mul_lt_mul_of_pos_right hi hreg
      omega
    have hz := hmk _ (Nat.le_add_right _ _) hlt
    rw [hz] at hmark
    exact absurd hmark (by simp)
  · rfl

lemma sweep_stride_eps_mark (env : VMEnv) (s : State) (eps address : Nat)
    (hreg : 0 < env.region) (hpage : 0 < env.page) (wf : SweepWF env s)
    (hdvd : env.region ∣ address) (g : Nat) (hg1 : address ≤ g)
    (hg2 : g < address + bulk env) (hgm : s.markBit g = true) :
    (sweep_stride env s eps address).2 ≠ 0 := by
  unfold sweep_stride
  split_ifs with h1 h2
  · exact sweep_loop_eps_mark env false (address + bulk env) hreg hpage
      (bulk env) address s eps wf hdvd (le_refl _) ⟨g, hg1, hg2, hgm⟩
  · show address + bulk env ≠ 0
    have hb := bulk_pos env hreg
    omega
  · exfalso
    have hag : s.allocBit g = true := wf.hmark g hgm
    have hgr : env.region ∣ g := wf.hgrid g hag
    obtain ⟨k, hk⟩ := Nat.dvd_sub' hgr hdvd
    rw [Nat.mul_comm] at hk
    have hklt : k * env.region < 128 * env.region := by
      unfold bulk at hg2
      omega
    have hk128 : k < 128 := lt_of_mul_lt_mul_right hklt (Nat.zero_le _)
    apply h2
    refine (anyAllocBit_iff env s address).mpr ⟨k, hk128, ?_⟩
    have hge : g = address + k * env.region := by omega
    rw [← hge]
    exact hag

lemma sweep_strides_marks (env : VMEnv) :
    ∀ n address s eps,
      (sweep_strides env n address s eps).1.markBit = s.markBit := by
  intro n
  induction n with
  | zero =>
    intro address s eps
    rfl
  | succ n ih =>
    intro address s eps
    simp only [sweep_strides]
    rw [ih, sweep_stride_marks]

lemma sweep_strides_frame (env : VMEnv) :
    ∀ n address s eps,
      (sweep_strides env n address s eps).1.chunkMark = s.chunkMark ∧
      (sweep_strides env n address s eps).1.sftMap = s.sftMap := by
  intro n
  induction n with
  | zero =>
    intro address s eps
    exact ⟨rfl, rfl⟩
  | succ n ih =>
    intro address s eps
    simp only [sweep_strides]
    obtain ⟨i1, i2⟩ := ih (address + bulk env)
      (sweep_stride env s eps address).1 (sweep_stride env s eps address).2
    obtain ⟨f1, f2⟩ := sweep_stride_frame env s eps address
    exact ⟨by rw [i1, f1], by rw [i2, f2]⟩

lemma sweep_strides_WF (env : VMEnv) :
    ∀ n address s eps, SweepWF env s →
      SweepWF env (sweep_strides env n address s eps).1 := by
  intro n
  induction n with
  | zero =>
    intro address s eps wf
    exact wf
  | succ n ih =>
    intro address s eps wf
    simp only [sweep_strides]
    exact ih _ _ _ (sweep_stride_WF env s eps address wf)

lemma sweep_strides_eps_pos (env : VMEnv) (hreg : 0 < env.region)
    (hpage : 0 < env.page) :
    ∀ n address s eps, SweepWF env s → eps ≠ 0 →
      (sweep_strides env n address s eps).2 ≠ 0 := by
  intro n
  induction n with
  | zero =>
    intro address s eps _ he
    exact he
  | succ n ih =>
    intro address s eps wf he
    simp only [sweep_strides]
    exact ih _ _ _ (sweep_stride_WF env s eps address wf)
      (sweep_stride_eps_pos env s eps address hreg hpage wf he)

lemma sweep_strides_eps_no_marks (env : VMEnv) (hreg : 0 < env.region) :
    ∀ n address s eps,
      (∀ a, address ≤ a → a < address + n * bulk env →
        s.markBit a = false) →
      (sweep_strides env n address s eps).2 = eps := by
  intro n
  induction n with
  | zero =>
    intro address s eps _
    rfl
  | succ n ih =>
    intro address s eps hmk
    have hmul : (n + 1) * bulk env = n * bulk env + bulk env := by ring
    simp only [sweep_strides]
    have hstr : (sweep_stride env s eps address).2 = eps := by
      apply sweep_stride_eps_no_marks env s eps address hreg
      intro a ha1 ha2
      exact hmk a ha1 (by omega)
    rw [hstr]
    apply ih
    intro a ha1 ha2
    rw [congrFun (sweep_stride_marks env s eps address) a]
    exact hmk a (by omega) (by omega)

lemma sweep_strides_eps_mark (env : VMEnv) (hreg : 0 < env.region)
    (hpage : 0 < env.page) :
    ∀ n address s eps, SweepWF env s → env.region ∣ address →
      (∃ g, address ≤ g ∧ g < address + n * bulk env ∧
        s.markBit g = true) →
      (sweep_strides env n address s eps).2 ≠ 0 := by
  intro n
  induction n with
  | zero =>
    intro address s eps _ _ hex
    obtain ⟨g, hg1, hg2, _⟩ := hex
    exact absurd hg2 (by omega)
  | succ n ih =>
    intro address s eps wf hdvd hex
    obtain ⟨g, hg1, hg2, hgm⟩ := hex
    have hmul : (n + 1) * bulk env = n * bulk env + bulk env := by ring
    simp only [sweep_strides]
    by_cases hgin : g < address + bulk env
    · exact sweep_strides_eps_pos env hreg hpage n _ _ _
        (sweep_stride_WF env s eps address wf)
        (sweep_stride_eps_mark env s eps address hreg hpage wf hdvd g hg1
          hgin hgm)
    · push_neg at hgin
      refine ih _ _ _ (sweep_stride_WF env s eps address wf)
        (dvd_add hdvd (region_dvd_bulk env)) ⟨g, hgin, by omega, ?_⟩
      rw [congrFun (sweep_stride_marks env s eps address) g]
      exact hgm


lemma clean_up_fields (s : State) (cs : Nat) :
    (clean_up_empty_chunk s cs).markBit = s.markBit ∧
    (clean_up_empty_chunk s cs).chunkMark cs = false ∧
    (clean_up_empty_chunk s cs).sftMap cs = false := by
  unfold clean_up_empty_chunk sft_clear unset_chunk_mark_unsafe
  exact ⟨rfl, by simp [setBit], by simp [setBit]⟩

lemma bzero_fields (s : State) (start len : Nat) :
    (bzero_mark_metadata s start len).chunkMark = s.chunkMark ∧
    (bzero_mark_metadata s start len).sftMap = s.sftMap :=
  ⟨rfl, rfl⟩

lemma bzero_markBit_in (s : State) (start len a : Nat) (h1 : start ≤ a)
    (h2 : a < start + len) :
    (bzero_mark_metadata s start len).markBit a = false := by
  simp [bzero_mark_metadata, h1, h2]

/-! ## Claim C5 -/

/-- **C5**: after `sweep_chunk(C)` returns, the mark-bit is clear for every
address in chunk C (in particular for every address whose alloc-bit is set),
under both dispatch targets: the side-mark sweep bulk-zeroes the mark bitmap
over the whole chunk, and the header-mark sweep's scan visits every object of
a well-formed heap and clears each survivor's mark (dead objects were
unmarked to begin with). -/
theorem sweep_chunk_clears_mark_bits (env : VMEnv) (s : State) (cs : Nat)
    (hreg : 0 < env.region) (hcs : env.region ∣ cs) (wf : SweepWF env s) :
    ∀ a, cs ≤ a → a < cs + env.chunk →
      (sweep_chunk env s cs).markBit a = false := by
  intro a h1 h2
  unfold sweep_chunk
  split_ifs with hside
  · unfold sweep_chunk_mark_on_side
    dsimp only
    split_ifs with h0
    · rw [(clean_up_fields _ cs).1]
      exact bzero_markBit_in _ cs env.chunk a h1 h2
    · exact bzero_markBit_in _ cs env.chunk a h1 h2
  · unfold sweep_chunk_mark_in_header
    dsimp only
    split_ifs with h0
    · rw [(clean_up_fields _ cs).1]
      exact sweep_loop_clears env (cs + env.chunk) hreg env.chunk cs s 0 wf
        hcs (le_refl _) a h1 h2
    · exact sweep_loop_clears env (cs + env.chunk) hreg env.chunk cs s 0 wf
        hcs (le_refl _) a h1 h2

/-- Witness for C5: sweeping (header-mark dispatch) the chunk at 0 holding
one live marked object at 64 leaves the object's mark-bit clear. -/
theorem sweep_chunk_clears_mark_bits_witness :
    (sweep_chunk envEx sLive64 0).markBit 64 = false := by
  refine sweep_chunk_clears_mark_bits envEx sLive64 0 (by decide) ⟨0, rfl⟩
    ⟨?_, ?_, ?_, ?_, ?_⟩ 64 (by decide) (by decide)
  · intro a h
    exact h
  · intro a h
    have ha : a = 64 := by simpa [sLive64, initState] using h
    subst ha
    exact ⟨4, rfl⟩
  · intro a c ha h1 h2
    have ha2 : a = 64 := by simpa [sLive64, initState] using ha
    subst ha2
    simp only [sLive64, initState]
    have hc : c ≠ 64 := by omega
    simp [hc]
  · intro a b ha hb hab
    have ha2 : a = 64 := by simpa [sLive64, initState] using ha
    have hb2 : b = 64 := by simpa [sLive64, initState] using hb
    subst ha2
    subst hb2
    exact absurd rfl hab
  · intro a ha
    have ha2 : a = 64 := by simpa [sLive64, initState] using ha
    subst ha2
    decide

/-! ## Claim C8 -/

/-- **C8**: `sweep_chunk(C)` clears C's chunk-mark and its entry in the
global address-to-space map if and only if no live (marked) object existed in
the chunk — equivalently, the walking state `empty_page_start` was never
advanced from zero.  Holds for both sweep variants over well-formed heaps
whose chunk starts are granule-aligned and whose chunk size is a multiple of
the 128-granule bulk-load size. -/
theorem sweep_chunk_empty_cleanup_iff (env : VMEnv) (s : State) (cs : Nat)
    (hreg : 0 < env.region) (hpage : 0 < env.page) (hcs : env.region ∣ cs)
    (wf : SweepWF env s) (hbulk : bulk env ∣ env.chunk)
    (hcm : s.chunkMark cs = true) (hsft : s.sftMap cs = true) :
    ((sweep_chunk env s cs).chunkMark cs = false ∧
     (sweep_chunk env s cs).sftMap cs = false)
      ↔ ∀ a, cs ≤ a → a < cs + env.chunk → s.markBit a = false := by
  unfold sweep_chunk
  split_ifs with hside
  · unfold sweep_chunk_mark_on_side
    dsimp only
    have hchunkeq : env.chunk / bulk env * bulk env = env.chunk :=
      Nat.div_mul_cancel hbulk
    constructor
    · intro hcl
      by_contra hnm
      push_neg at hnm
      obtain ⟨g, hga, hgb, hgm⟩ := hnm
      have hgm2 : s.markBit g = true := by
        cases hx : s.markBit g
        · exact absurd hx hgm
        · rfl
      have heps : (sweep_strides env (env.chunk / bulk env) cs s 0).2 ≠ 0 := by
        refine sweep_strides_eps_mark env hreg hpage _ cs s 0 wf hcs
          ⟨g, hga, ?_, hgm2⟩
        omega
      rw [if_neg heps] at hcl
      have hf := (sweep_strides_frame env (env.chunk / bulk env) cs s 0).1
      have hb := (bzero_fields
        (sweep_strides env (env.chunk / bulk env) cs s 0).1 cs env.chunk).1
      rw [hb, hf] at hcl
      rw [hcl.1] at hcm
      exact absurd hcm (by simp)
    · intro hnm
      have heps : (sweep_strides env (env.chunk / bulk env) cs s 0).2 = 0 := by
        apply sweep_strides_eps_no_marks env hreg _ cs s 0
        intro a ha1 ha2
        exact hnm a ha1 (by omega)
      rw [if_pos heps]
      exact ⟨(clean_up_fields _ cs).2.1, (clean_up_fields _ cs).2.2⟩
  · unfold sweep_chunk_mark_in_header
    dsimp only
    constructor
    · intro hcl
      by_contra hnm
      push_neg at hnm
      obtain ⟨g, hga, hgb, hgm⟩ := hnm
      have hgm2 : s.markBit g = true := by
        cases hx : s.markBit g
        · exact absurd hx hgm
        · rfl
      have heps : (sweep_loop env true (cs + env.chunk) env.chunk cs
          s 0).2 ≠ 0 :=
        sweep_loop_eps_mark env true (cs + env.chunk) hreg hpage env.chunk cs
          s 0 wf hcs (le_refl _) ⟨g, hga, hgb, hgm2⟩
      rw [if_neg heps] at hcl
      have hf := (sweep_loop_frame env true (cs + env.chunk) env.chunk cs
        s 0).1
      rw [hf] at hcl
      rw [hcl.1] at hcm
      exact absurd hcm (by simp)
    · intro hnm
      have heps : (sweep_loop env true (cs + env.chunk) env.chunk cs
          s 0).2 = 0 :=
        sweep_loop_eps_no_marks env true (cs + env.chunk) env.chunk cs s 0 hnm
      rw [if_pos heps]
      exact ⟨(clean_up_fields _ cs).2.1, (clean_up_fields _ cs).2.2⟩

/-- State for the C8 witness: the chunk at 0 is registered (chunk-mark and
SFT entry set) but holds no objects and no marks. -/
def sC8 : State :=
  { initState with chunkMark := fun c => c == 0, sftMap := fun c => c == 0 }

/-- Witness for C8: sweeping the registered empty chunk at 0 gives the
instantiated equivalence between cleanup and the absence of marks. -/
theorem sweep_chunk_empty_cleanup_iff_witness :
    ((sweep_chunk envEx sC8 0).chunkMark 0 = false ∧
     (sweep_chunk envEx sC8 0).sftMap 0 = false)
      ↔ ∀ a, 0 ≤ a → a < 0 + envEx.chunk → sC8.markBit a = false := by
  refine sweep_chunk_empty_cleanup_iff envEx sC8 0 (by decide) (by decide)
    ⟨0, rfl⟩ ⟨?_, ?_, ?_, ?_, ?_⟩ ⟨1, by decide⟩ (by decide) (by decide)
  all_goals
    intro a
    simp [sC8, initState]

end MallocVerify
